import Mathlib

/-!
Shallow embedding of the bet-wise rust-trading-engine core
(models: order, trade, balance, market; services: balance_service,
matching_engine, order_service, settlement_service).

Conventions of the embedding:
* `rust_decimal::Decimal` (exact decimal arithmetic) is modelled as `ℚ`;
  the operations used by the code (+, -, *, comparisons) are exact in both.
* `u32` quantities are modelled as `ℕ`; the code never performs an
  unguarded subtraction (see `Order.apply_fill`), so no wrap-around
  behaviour has to be modelled.
* `Uuid` and market identifiers are modelled as `ℕ`.
* Timestamps (`created_at`, `updated_at`, `resolved_at`, `executed_at`)
  and the randomly generated `trade_id` / `order_id` of constructors are
  environment inputs irrelevant to the verified claims; they are omitted
  from the structures.
* Repository persistence and in-memory caches always succeed in the
  model; the service functions are given the relevant loaded state
  (market, user ledger) explicitly and return the mutated state.
-/

namespace BetWise

/-- Monetary amounts and prices (rust_decimal Decimal) as exact rationals. -/
abbrev Dec := ℚ

/-- Uuid identifiers as naturals. -/
abbrev Uuid := Nat

/-- Side of an order (models/order.rs OrderSide). -/
inductive OrderSide where
  | Buy
  | Sell
deriving DecidableEq, Repr

/-- Side of market outcome (models/order.rs OutcomeSide). -/
inductive OutcomeSide where
  | Yes
  | No
deriving DecidableEq, Repr

/-- Status of an order (models/order.rs OrderStatus). -/
inductive OrderStatus where
  | Open
  | PartiallyFilled
  | Filled
  | Cancelled
  | Rejected
deriving DecidableEq, Repr

/-- Status of a prediction market (models/market.rs MarketStatus). -/
inductive MarketStatus where
  | Open
  | Paused
  | Closed
  | ResolvedYes
  | ResolvedNo
  | Cancelled
deriving DecidableEq, Repr

/-- A trading order (models/order.rs Order, timestamps omitted). -/
structure Order where
  order_id : Uuid
  user_id : Uuid
  market_id : Nat
  side : OrderSide
  outcome : OutcomeSide
  price : Dec
  quantity : Nat
  remaining_quantity : Nat
  status : OrderStatus
deriving DecidableEq, Repr

/-- Updates the order after a fill (models/order.rs Order::apply_fill). -/
def Order.apply_fill (o : Order) (fill_quantity : Nat) : Order :=
  if fill_quantity ≥ o.remaining_quantity then
    { o with remaining_quantity := 0, status := OrderStatus.Filled }
  else
    { o with remaining_quantity := o.remaining_quantity - fill_quantity,
             status := OrderStatus.PartiallyFilled }

/-- Checks if this order is still active (models/order.rs Order::is_active). -/
def Order.is_active (o : Order) : Bool :=
  match o.status with
  | OrderStatus.Open => true
  | OrderStatus.PartiallyFilled => true
  | _ => false

/-- A completed trade (models/trade.rs Trade; trade_id and executed_at omitted). -/
structure Trade where
  market_id : Nat
  buy_order_id : Uuid
  buyer_id : Uuid
  sell_order_id : Uuid
  seller_id : Uuid
  outcome : OutcomeSide
  price : Dec
  quantity : Nat
deriving DecidableEq, Repr

/-- Per-trade resolution payout (models/trade.rs Trade::calculate_payout):
returns (yes_user_id, yes_payout, no_user_id, no_payout). -/
def Trade.calculate_payout (t : Trade) (winner : OutcomeSide) :
    Uuid × Dec × Uuid × Dec :=
  let base : Dec := (t.quantity : Dec)
  let yes_user_id := match t.outcome with
    | OutcomeSide.Yes => t.buyer_id
    | OutcomeSide.No => t.seller_id
  let no_user_id := match t.outcome with
    | OutcomeSide.Yes => t.seller_id
    | OutcomeSide.No => t.buyer_id
  match winner with
  | OutcomeSide.Yes => (yes_user_id, base, no_user_id, 0)
  | OutcomeSide.No => (yes_user_id, 0, no_user_id, base)

/-- A user's balance (models/balance.rs UserBalance, timestamp omitted). -/
structure UserBalance where
  user_id : Uuid
  available_balance : Dec
  reserved_balance : Dec
deriving DecidableEq, Repr

/-- Transaction type for the balance ledger (models/balance.rs TransactionType). -/
inductive TransactionType where
  | Deposit
  | Withdraw
  | OrderReserve
  | OrderRelease
  | SettlementPayout
deriving DecidableEq, Repr

/-- A ledger entry (models/balance.rs BalanceTransaction; id, description and
timestamp omitted, reference_id kept as an optional numeric id). -/
structure BalanceTransaction where
  user_id : Uuid
  amount : Dec
  transaction_type : TransactionType
  reference_id : Option Nat
deriving DecidableEq, Repr

/-- UserBalance::reserve_funds: moves amount from available to reserved. -/
def UserBalance.reserve_funds (b : UserBalance) (amount : Dec) :
    Except String UserBalance :=
  if b.available_balance < amount then
    Except.error "Insufficient funds"
  else
    Except.ok { b with available_balance := b.available_balance - amount,
                       reserved_balance := b.reserved_balance + amount }

/-- UserBalance::release_funds: moves amount from reserved back to available. -/
def UserBalance.release_funds (b : UserBalance) (amount : Dec) :
    Except String UserBalance :=
  if b.reserved_balance < amount then
    Except.error "Cannot release more than reserved"
  else
    Except.ok { b with reserved_balance := b.reserved_balance - amount,
                       available_balance := b.available_balance + amount }

/-- UserBalance::add_funds: adds amount to the available balance. -/
def UserBalance.add_funds (b : UserBalance) (amount : Dec) : UserBalance :=
  { b with available_balance := b.available_balance + amount }

/-- UserBalance::withdraw_funds: removes amount from the available balance. -/
def UserBalance.withdraw_funds (b : UserBalance) (amount : Dec) :
    Except String UserBalance :=
  if b.available_balance < amount then
    Except.error "Insufficient funds"
  else
    Except.ok { b with available_balance := b.available_balance - amount }

/-- State of one user seen by the balance service: the balance row plus the
append-only list of that user's ledger transactions (newest last). -/
structure LedgerState where
  balance : UserBalance
  transactions : List BalanceTransaction
deriving DecidableEq, Repr

namespace BalanceService

/-- services/balance_service.rs BalanceService::add_funds (deposit). -/
def add_funds (st : LedgerState) (amount : Dec) : Except String LedgerState :=
  if amount ≤ 0 then
    Except.error "Amount must be positive"
  else
    let balance := st.balance.add_funds amount
    Except.ok { balance,
                transactions := st.transactions ++
                  [⟨st.balance.user_id, amount, TransactionType.Deposit, none⟩] }

/-- services/balance_service.rs BalanceService::withdraw_funds. -/
def withdraw_funds (st : LedgerState) (amount : Dec) : Except String LedgerState :=
  if amount ≤ 0 then
    Except.error "Amount must be positive"
  else
    match st.balance.withdraw_funds amount with
    | Except.error e => Except.error e
    | Except.ok balance =>
      Except.ok { balance,
                  transactions := st.transactions ++
                    [⟨st.balance.user_id, amount, TransactionType.Withdraw, none⟩] }

/-- services/balance_service.rs BalanceService::reserve_funds. -/
def reserve_funds (st : LedgerState) (amount : Dec) (order_id : Uuid) :
    Except String LedgerState :=
  if amount ≤ 0 then
    Except.error "Amount must be positive"
  else
    match st.balance.reserve_funds amount with
    | Except.error e => Except.error e
    | Except.ok balance =>
      Except.ok { balance,
                  transactions := st.transactions ++
                    [⟨st.balance.user_id, amount, TransactionType.OrderReserve,
                      some order_id⟩] }

/-- services/balance_service.rs BalanceService::release_funds. -/
def release_funds (st : LedgerState) (amount : Dec) (order_id : Uuid) :
    Except String LedgerState :=
  if amount ≤ 0 then
    Except.error "Amount must be positive"
  else
    match st.balance.release_funds amount with
    | Except.error e => Except.error e
    | Except.ok balance =>
      Except.ok { balance,
                  transactions := st.transactions ++
                    [⟨st.balance.user_id, amount, TransactionType.OrderRelease,
                      some order_id⟩] }

/-- services/balance_service.rs BalanceService::process_payout: credits the
amount to available with a SettlementPayout ledger entry.  The source has
no positivity check on this path and never fails (persistence aside). -/
def process_payout (st : LedgerState) (amount : Dec) (market_id : Nat) :
    LedgerState :=
  let balance := st.balance.add_funds amount
  { balance,
    transactions := st.transactions ++
      [⟨st.balance.user_id, amount, TransactionType.SettlementPayout,
        some market_id⟩] }

end BalanceService

/-- One price level of the book: the FIFO queue (VecDeque, front first). -/
abbrev PriceLevel := List Order

/-- One side of the book: BTreeMap from price to FIFO queue, represented as
an association list in ascending key order (BTreeMap iteration order). -/
abbrev PriceMap := List (Dec × PriceLevel)

/-- Keys of the map in BTreeMap (ascending) iteration order. -/
def PriceMap.keysAsc (b : PriceMap) : List Dec := b.map Prod.fst

/-- BTreeMap::get for a price level. -/
def PriceMap.lookup (b : PriceMap) (p : Dec) : Option PriceLevel :=
  match b with
  | [] => none
  | (k, q) :: rest => if k = p then some q else PriceMap.lookup rest p

/-- Replaces the queue stored at an existing price key. -/
def PriceMap.setLevel (b : PriceMap) (p : Dec) (q : PriceLevel) : PriceMap :=
  match b with
  | [] => []
  | (k, q0) :: rest =>
    if k = p then (k, q) :: rest else (k, q0) :: PriceMap.setLevel rest p q

/-- BTreeMap::remove of a price key. -/
def PriceMap.removeLevel (b : PriceMap) (p : Dec) : PriceMap :=
  match b with
  | [] => []
  | (k, q0) :: rest =>
    if k = p then rest else (k, q0) :: PriceMap.removeLevel rest p

/-- BTreeMap entry(price).or_insert_with(VecDeque::new).push_back(order):
appends the order at the tail of the queue for its price, creating the
level (in ascending key position) when absent. -/
def PriceMap.insertBack (b : PriceMap) (p : Dec) (o : Order) : PriceMap :=
  match b with
  | [] => [(p, [o])]
  | (k, q) :: rest =>
    if k = p then (k, q ++ [o]) :: rest
    else if p < k then (p, [o]) :: (k, q) :: rest
    else (k, q) :: PriceMap.insertBack rest p o

/-- All orders stored in one side of the book, in iteration order. -/
def PriceMap.ordersOf (b : PriceMap) : List Order := (b.map Prod.snd).flatten

/-- Removes the first order with the given id from a FIFO queue
(VecDeque::remove at the found position). -/
def PriceLevel.removeById (q : PriceLevel) (oid : Uuid) :
    Option (Order × PriceLevel) :=
  match q with
  | [] => none
  | o :: rest =>
    if o.order_id = oid then some (o, rest)
    else
      match PriceLevel.removeById rest oid with
      | none => none
      | some (found, rest2) => some (found, o :: rest2)

/-- Removes the first order with the given id found while scanning the price
levels.  As in the source (models/market.rs remove_order), a queue left
empty by the removal stays in the map. -/
def PriceMap.removeById (b : PriceMap) (oid : Uuid) :
    Option (Order × PriceMap) :=
  match b with
  | [] => none
  | (k, q) :: rest =>
    match PriceLevel.removeById q oid with
    | some (found, q2) => some (found, (k, q2) :: rest)
    | none =>
      match PriceMap.removeById rest oid with
      | none => none
      | some (found, rest2) => some (found, (k, q) :: rest2)

/-- The order book of a market (models/market.rs OrderBook). -/
structure OrderBook where
  yes_bids : PriceMap
  yes_asks : PriceMap
  no_bids : PriceMap
  no_asks : PriceMap
deriving DecidableEq, Repr

/-- The empty order book (models/market.rs OrderBook::new). -/
def OrderBook.new : OrderBook := ⟨[], [], [], []⟩

/-- models/market.rs OrderBook::add_order: inactive orders are ignored;
otherwise the order is appended to the queue of its (side, outcome, price). -/
def OrderBook.add_order (bk : OrderBook) (o : Order) : OrderBook :=
  if ¬ o.is_active then bk
  else
    match o.side, o.outcome with
    | OrderSide.Buy, OutcomeSide.Yes =>
      { bk with yes_bids := bk.yes_bids.insertBack o.price o }
    | OrderSide.Sell, OutcomeSide.Yes =>
      { bk with yes_asks := bk.yes_asks.insertBack o.price o }
    | OrderSide.Buy, OutcomeSide.No =>
      { bk with no_bids := bk.no_bids.insertBack o.price o }
    | OrderSide.Sell, OutcomeSide.No =>
      { bk with no_asks := bk.no_asks.insertBack o.price o }

/-- models/market.rs OrderBook::get_best_prices: the source takes
keys().next() (the first key in ascending BTreeMap order) of the bid and
ask maps of the requested outcome. -/
def OrderBook.get_best_prices (bk : OrderBook) (outcome : OutcomeSide) :
    Option Dec × Option Dec :=
  match outcome with
  | OutcomeSide.Yes => (bk.yes_bids.keysAsc.head?, bk.yes_asks.keysAsc.head?)
  | OutcomeSide.No => (bk.no_bids.keysAsc.head?, bk.no_asks.keysAsc.head?)

/-- models/market.rs OrderBook::get_mid_price. -/
def OrderBook.get_mid_price (bk : OrderBook) (outcome : OutcomeSide) :
    Option Dec :=
  match bk.get_best_prices outcome with
  | (some bid, some ask) => some ((bid + ask) / 2)
  | (some bid, none) => some bid
  | (none, some ask) => some ask
  | (none, none) => none

/-- models/market.rs OrderBook::remove_order: scans yes_bids, yes_asks,
no_bids, no_asks (outcome-major, side-minor order as in the source loop)
and removes the first order whose id matches. -/
def OrderBook.remove_order (bk : OrderBook) (oid : Uuid) :
    Option (Order × OrderBook) :=
  match bk.yes_bids.removeById oid with
  | some (o, m) => some (o, { bk with yes_bids := m })
  | none =>
    match bk.yes_asks.removeById oid with
    | some (o, m) => some (o, { bk with yes_asks := m })
    | none =>
      match bk.no_bids.removeById oid with
      | some (o, m) => some (o, { bk with no_bids := m })
      | none =>
        match bk.no_asks.removeById oid with
        | some (o, m) => some (o, { bk with no_asks := m })
        | none => none

/-- A prediction market (models/market.rs Market; question, description,
timestamps omitted). -/
structure Market where
  market_id : Nat
  status : MarketStatus
  order_book : OrderBook
  resolution : Option OutcomeSide
deriving DecidableEq, Repr

/-- models/market.rs Market::is_open. -/
def Market.is_open (m : Market) : Bool := m.status = MarketStatus.Open

/-- models/market.rs Market::is_resolved. -/
def Market.is_resolved (m : Market) : Bool :=
  match m.status with
  | MarketStatus.ResolvedYes => true
  | MarketStatus.ResolvedNo => true
  | _ => false

/-- models/market.rs Market::resolve. -/
def Market.resolve (m : Market) (outcome : OutcomeSide) : Market :=
  { m with
    status := match outcome with
      | OutcomeSide.Yes => MarketStatus.ResolvedYes
      | OutcomeSide.No => MarketStatus.ResolvedNo,
    resolution := some outcome }

/-- models/market.rs Market::close. -/
def Market.close (m : Market) : Market :=
  { m with status := MarketStatus.Closed }

/-- models/market.rs Market::cancel. -/
def Market.cancel (m : Market) : Market :=
  { m with status := MarketStatus.Cancelled }

/-- Result of matching one order (services/matching_engine.rs MatchingResult). -/
structure MatchingResult where
  remaining_order : Option Order
  trades : List Trade
deriving DecidableEq, Repr

/-- The trade record built inside the matching loop
(services/matching_engine.rs match_order, lines 115-136): for a Buy taker
the taker is the buyer and the resting order the seller, and conversely
for a Sell taker; the execution price is the resting price level. -/
def mkTradeAt (order m : Order) (price : Dec) (match_quantity : Nat) : Trade :=
  match order.side with
  | OrderSide.Buy =>
    ⟨order.market_id, order.order_id, order.user_id,
     m.order_id, m.user_id, order.outcome, price, match_quantity⟩
  | OrderSide.Sell =>
    ⟨order.market_id, m.order_id, m.user_id,
     order.order_id, order.user_id, order.outcome, price, match_quantity⟩

/-- The inner while loop of services/matching_engine.rs match_order
(lines 98-162): walks the FIFO queue of one price level, skipping resting
orders of the same user, filling min(taker remaining, resting remaining)
against the others, and dropping resting orders whose remaining reaches 0.
Returns the updated taker, the surviving queue, and the trades in order. -/
def matchLevel (order : Order) (price : Dec) (queue : PriceLevel) :
    Order × PriceLevel × List Trade :=
  match queue with
  | [] => (order, [], [])
  | m :: rest =>
    if order.remaining_quantity = 0 then (order, m :: rest, [])
    else if m.user_id = order.user_id then
      let r := matchLevel order price rest
      (r.1, m :: r.2.1, r.2.2)
    else
      let match_quantity := min order.remaining_quantity m.remaining_quantity
      if 0 < match_quantity then
        let trade := mkTradeAt order m price match_quantity
        let order2 := order.apply_fill match_quantity
        let m2 := m.apply_fill match_quantity
        if m2.remaining_quantity = 0 then
          let r := matchLevel order2 price rest
          (r.1, r.2.1, trade :: r.2.2)
        else
          let r := matchLevel order2 price rest
          (r.1, m2 :: r.2.1, trade :: r.2.2)
      else
        if m.remaining_quantity = 0 then
          matchLevel order price rest
        else
          let r := matchLevel order price rest
          (r.1, m :: r.2.1, r.2.2)

/-- The matching_prices collection of services/matching_engine.rs
match_order (lines 77-89): crossing price levels of the opposing map, in
match order (ascending for a Buy taker, descending via rev() for Sell). -/
def matchingPrices (order : Order) (book : PriceMap) : List Dec :=
  match order.side with
  | OrderSide.Buy => book.keysAsc.takeWhile (fun price => price ≤ order.price)
  | OrderSide.Sell =>
    book.keysAsc.reverse.takeWhile (fun price => order.price ≤ price)

/-- The outer for loop of services/matching_engine.rs match_order
(lines 92-169): processes each crossing price level until the taker is
exhausted, writing the surviving queue back and removing emptied levels. -/
def matchLoop (order : Order) (prices : List Dec) (book : PriceMap) :
    Order × PriceMap × List Trade :=
  match prices with
  | [] => (order, book, [])
  | price :: rest =>
    if order.remaining_quantity = 0 then (order, book, [])
    else
      match book.lookup price with
      | none => matchLoop order rest book
      | some orders_at_price =>
        let r := matchLevel order price orders_at_price
        let book2 :=
          if r.2.1.isEmpty then book.removeLevel price
          else book.setLevel price r.2.1
        let r2 := matchLoop r.1 rest book2
        (r2.1, r2.2.1, r.2.2 ++ r2.2.2)

/-- Selects the opposing map the taker matches against
(services/matching_engine.rs match_order, lines 69-74). -/
def opposingMap (bk : OrderBook) (side : OrderSide) (outcome : OutcomeSide) :
    PriceMap :=
  match side, outcome with
  | OrderSide.Buy, OutcomeSide.Yes => bk.yes_asks
  | OrderSide.Sell, OutcomeSide.Yes => bk.yes_bids
  | OrderSide.Buy, OutcomeSide.No => bk.no_asks
  | OrderSide.Sell, OutcomeSide.No => bk.no_bids

/-- Writes the mutated opposing map back into the book. -/
def setOpposing (bk : OrderBook) (side : OrderSide) (outcome : OutcomeSide)
    (m : PriceMap) : OrderBook :=
  match side, outcome with
  | OrderSide.Buy, OutcomeSide.Yes => { bk with yes_asks := m }
  | OrderSide.Sell, OutcomeSide.Yes => { bk with yes_bids := m }
  | OrderSide.Buy, OutcomeSide.No => { bk with no_asks := m }
  | OrderSide.Sell, OutcomeSide.No => { bk with no_bids := m }

namespace MatchingEngine

/-- services/matching_engine.rs MatchingEngine::match_order: matches the
taker against the opposing side of the market book and returns the updated
taker, the updated market, and the trades produced in order. -/
def match_order (order : Order) (market : Market) :
    Order × Market × List Trade :=
  let book := opposingMap market.order_book order.side order.outcome
  let r := matchLoop order (matchingPrices order book) book
  (r.1,
   { market with
     order_book := setOpposing market.order_book order.side order.outcome r.2.1 },
   r.2.2)

/-- services/matching_engine.rs MatchingEngine::process_order: rejects the
order when the market is not open (book untouched); otherwise matches and
places any active residual on the book. -/
def process_order (order : Order) (market : Market) :
    MatchingResult × Market :=
  if ¬ market.is_open then
    ({ remaining_order := some { order with status := OrderStatus.Rejected },
       trades := [] }, market)
  else
    let r := match_order order market
    let order2 := r.1
    let market2 := r.2.1
    let trades := r.2.2
    if 0 < order2.remaining_quantity ∧ order2.is_active then
      ({ remaining_order := some order2, trades },
       { market2 with order_book := market2.order_book.add_order order2 })
    else
      ({ remaining_order := none, trades }, market2)

end MatchingEngine

/-- Result returned by submit_order (services/order_service.rs
OrderMatchResult). -/
structure OrderMatchResult where
  order : Order
  was_matched : Bool
  error : Option String
deriving DecidableEq, Repr

namespace OrderService

/-- services/order_service.rs OrderService::calculate_reserve_amount:
price * quantity for a Buy order, quantity for a Sell order (both based on
the order's original quantity field). -/
def calculate_reserve_amount (order : Order) : Dec :=
  match order.side with
  | OrderSide.Buy => order.price * (order.quantity : Dec)
  | OrderSide.Sell => (order.quantity : Dec)

/-- services/order_service.rs OrderService::submit_order, with persistence
and the market cache elided (they always succeed in the model) and the
submitting user's ledger and the market passed in explicitly.  The source
reserves funds, saves the order, checks the market is open, and then —
matching deliberately left unimplemented ("placeholder for future matching
logic implementation") — adds the order directly to the book, returning
was_matched = false with no trades. -/
def submit_order (order : Order) (ledger : LedgerState) (market : Market) :
    Except String (OrderMatchResult × LedgerState × Market) :=
  let reserve_amount := calculate_reserve_amount order
  match BalanceService.reserve_funds ledger reserve_amount order.order_id with
  | Except.error e => Except.error e
  | Except.ok ledger2 =>
    if ¬ market.is_open then
      let ledger3 :=
        match BalanceService.release_funds ledger2 reserve_amount order.order_id with
        | Except.ok l => l
        | Except.error _ => ledger2
      Except.ok ({ order, was_matched := false,
                   error := some "Market is not open for trading" },
                 ledger3, market)
    else
      Except.ok ({ order, was_matched := false, error := none },
                 ledger2,
                 { market with order_book := market.order_book.add_order order })

/-- services/order_service.rs OrderService::cancel_order, with persistence
elided and the stored order, the cancelling user's ledger and the market
passed in explicitly: removes the order from the book (failing when it is
not there), marks it Cancelled, and releases calculate_reserve_amount of
the removed book entry. -/
def cancel_order (order : Order) (ledger : LedgerState) (market : Market) :
    Except String (Order × LedgerState × Market) :=
  match market.order_book.remove_order order.order_id with
  | some (removed_order, book2) =>
    let order2 := { order with status := OrderStatus.Cancelled }
    let reserved_amount := calculate_reserve_amount removed_order
    match BalanceService.release_funds ledger reserved_amount order.order_id with
    | Except.error e => Except.error e
    | Except.ok ledger2 =>
      Except.ok (order2, ledger2, { market with order_book := book2 })
  | none => Except.error "Order not found in market"

end OrderService

namespace SettlementService

/-- The loop body state of services/settlement_service.rs process_payouts:
walks the market's trades, skips trades whose outcome differs from the
winning outcome, and credits each not-yet-processed buyer with
quantity * (1 + (1 - price)) and each not-yet-processed seller with
quantity, tracking processed users in a set.  Returns the ordered list of
(user, credited amount) payouts. -/
def processPayoutsGo (trades : List Trade) (winning_outcome : OutcomeSide)
    (processed_users : List Uuid) : List (Uuid × Dec) :=
  match trades with
  | [] => []
  | trade :: rest =>
    if trade.outcome ≠ winning_outcome then
      processPayoutsGo rest winning_outcome processed_users
    else
      if trade.buyer_id ∈ processed_users then
        if trade.seller_id ∈ processed_users then
          processPayoutsGo rest winning_outcome processed_users
        else
          (trade.seller_id, (trade.quantity : Dec)) ::
            processPayoutsGo rest winning_outcome
              (trade.seller_id :: processed_users)
      else
        let payout_amount : Dec :=
          (trade.quantity : Dec) * (1 + (1 - trade.price))
        if trade.seller_id ∈ trade.buyer_id :: processed_users then
          (trade.buyer_id, payout_amount) ::
            processPayoutsGo rest winning_outcome
              (trade.buyer_id :: processed_users)
        else
          (trade.buyer_id, payout_amount) ::
            (trade.seller_id, (trade.quantity : Dec)) ::
            processPayoutsGo rest winning_outcome
              (trade.seller_id :: trade.buyer_id :: processed_users)

/-- services/settlement_service.rs SettlementService::process_payouts as a
pure function from the market's trade list to the ordered payout credits
(each credit is applied through BalanceService.process_payout). -/
def process_payouts (trades : List Trade) (winning_outcome : OutcomeSide) :
    List (Uuid × Dec) :=
  processPayoutsGo trades winning_outcome []

/-- services/settlement_service.rs SettlementService::resolve_market, with
persistence elided and the market and its trades passed in explicitly:
fails when the market is already resolved (whatever the requested outcome),
fails when it is not Closed, and otherwise resolves it and produces the
payout credits of process_payouts. -/
def resolve_market (market : Market) (trades : List Trade)
    (outcome : OutcomeSide) : Except String (Market × List (Uuid × Dec)) :=
  if market.is_resolved then
    Except.error "Market is already resolved"
  else if market.status ≠ MarketStatus.Closed then
    Except.error "Market must be closed before resolving"
  else
    Except.ok (market.resolve outcome, process_payouts trades outcome)

end SettlementService

/-- Total cash credited by a payout list. -/
def totalCredited (payouts : List (Uuid × Dec)) : Dec :=
  (payouts.map Prod.snd).sum

/-- Sum of trade quantities of a trade list (as cash, 1 unit per share). -/
def sumQuantities (trades : List Trade) : Dec :=
  ((trades.map Trade.quantity).sum : Nat)

/-- Modelled from the spec: the best bid of one side of the book is the
highest price whose queue is non-empty (spec 4.1); stated for comparison
with the source's get_best_prices. -/
def bestBidSpec (b : PriceMap) : Option Dec :=
  ((b.filter (fun pq => ¬ pq.2.isEmpty)).map Prod.fst).max?

/-- Order ids stored in one side of the book. -/
def PriceMap.idsOf (b : PriceMap) : List Uuid := b.ordersOf.map Order.order_id

/-- All order ids stored in the book. -/
def OrderBook.allIds (bk : OrderBook) : List Uuid :=
  bk.yes_bids.idsOf ++ bk.yes_asks.idsOf ++ bk.no_bids.idsOf ++ bk.no_asks.idsOf

/-- The ids (order id, user id) of the maker side of a trade, given the
taker's side: the maker of a Buy taker is the trade's sell side and
conversely. -/
def makerIdsOf (side : OrderSide) (t : Trade) : Uuid × Uuid :=
  match side with
  | OrderSide.Buy => (t.sell_order_id, t.seller_id)
  | OrderSide.Sell => (t.buy_order_id, t.buyer_id)

/-- Sum of trade quantities as a natural number. -/
def sumQ (trades : List Trade) : Nat := (trades.map Trade.quantity).sum

/-- Every trade of the list is justified by a maker among the given
resting orders: its price is that maker's price, its quantity is
min(taker remaining at match time, maker remaining), it is positive, the
maker is not the taker's own user, and the trade's maker-side ids are the
maker's.  The taker's remaining decreases by each trade's quantity. -/
def justified (side : OrderSide) (u : Uuid) (r : Nat) (makers : List Order) :
    List Trade → Prop
  | [] => True
  | t :: ts =>
    (∃ m ∈ makers, m.user_id ≠ u ∧ t.price = m.price ∧
        t.quantity = min r m.remaining_quantity ∧ 0 < t.quantity ∧
        makerIdsOf side t = (m.order_id, m.user_id)) ∧
    justified side u (r - t.quantity) makers ts

section ConcreteInputs

/-- Concrete trade: buyer 1 bought 10 Yes at 0.60 from seller 2
(spec scenario 5). -/
def tradeC1 : Trade := ⟨0, 10, 1, 11, 2, OutcomeSide.Yes, 3/5, 10⟩

/-- Concrete closed market with an empty book. -/
def marketClosedC : Market := ⟨0, MarketStatus.Closed, OrderBook.new, none⟩

/-- Concrete resting ask: user 2 sells 10 Yes at 0.55. -/
def restingAskC : Order :=
  ⟨11, 2, 0, OrderSide.Sell, OutcomeSide.Yes, 11/20, 10, 10, OrderStatus.Open⟩

/-- Concrete crossing taker: user 1 buys 10 Yes at 0.60. -/
def takerBuyC : Order :=
  ⟨10, 1, 0, OrderSide.Buy, OutcomeSide.Yes, 3/5, 10, 10, OrderStatus.Open⟩

/-- Concrete open market whose book holds restingAskC. -/
def marketOpenC : Market :=
  ⟨0, MarketStatus.Open,
   { OrderBook.new with yes_asks := [(11/20, [restingAskC])] }, none⟩

/-- Concrete ledger of user 1 with 100 available. -/
def ledgerC : LedgerState := ⟨⟨1, 100, 0⟩, []⟩

/-- Concrete resting bids at 0.40 (order 20) and 0.60 (order 21) on Yes. -/
def bidLowC : Order :=
  ⟨20, 3, 0, OrderSide.Buy, OutcomeSide.Yes, 2/5, 5, 5, OrderStatus.Open⟩

/-- Second concrete resting bid, at the higher price 0.60. -/
def bidHighC : Order :=
  ⟨21, 4, 0, OrderSide.Buy, OutcomeSide.Yes, 3/5, 5, 5, OrderStatus.Open⟩

/-- Concrete book with Yes bids at 0.40 and 0.60 (ascending storage order,
as BTreeMap keeps them). -/
def bookBidsC : OrderBook :=
  { OrderBook.new with yes_bids := [(2/5, [bidLowC]), (3/5, [bidHighC])] }

/-- Concrete partially filled buy order: price 0.50, quantity 10,
remaining 4. -/
def partialBuyC : Order :=
  ⟨30, 1, 0, OrderSide.Buy, OutcomeSide.Yes, 1/2, 10, 4,
   OrderStatus.PartiallyFilled⟩

/-- Concrete open market whose book holds partialBuyC. -/
def marketPartialC : Market :=
  ⟨0, MarketStatus.Open,
   { OrderBook.new with yes_bids := [(1/2, [partialBuyC])] }, none⟩

/-- Concrete ledger of user 1 with 5 reserved (the original reservation of
partialBuyC). -/
def ledgerPartialC : LedgerState := ⟨⟨1, 0, 5⟩, []⟩

/-- Concrete order with the off-grid price 0.555. -/
def offGridC : Order :=
  ⟨40, 1, 0, OrderSide.Buy, OutcomeSide.Yes, 111/200, 10, 10, OrderStatus.Open⟩

/-- Concrete open market with an empty book. -/
def marketEmptyOpenC : Market := ⟨0, MarketStatus.Open, OrderBook.new, none⟩

/-- Concrete ledger of user 1 with 10 available for the payout claim. -/
def ledgerPayC : LedgerState := ⟨⟨1, 10, 0⟩, []⟩

end ConcreteInputs

/-- C10: for every order and fill quantity, apply_fill leaves the original
quantity unchanged, sets the new remaining_quantity to
remaining_quantity - min(fill_quantity, remaining_quantity) (no
underflow), and sets the status to Filled exactly when the new remaining
quantity is 0 and to PartiallyFilled otherwise. -/
theorem C10_apply_fill_safe (o : Order) (fill_quantity : Nat) :
    (o.apply_fill fill_quantity).remaining_quantity =
      o.remaining_quantity - min fill_quantity o.remaining_quantity ∧
    (o.apply_fill fill_quantity).quantity = o.quantity ∧
    ((o.apply_fill fill_quantity).status = OrderStatus.Filled ↔
      (o.apply_fill fill_quantity).remaining_quantity = 0) ∧
    ((o.apply_fill fill_quantity).status = OrderStatus.PartiallyFilled ↔
      0 < (o.apply_fill fill_quantity).remaining_quantity) := by
  unfold Order.apply_fill
  by_cases h : fill_quantity ≥ o.remaining_quantity
  · simp [h]
  · simp [h]
    omega

/-- C1: evaluation of resolve_market at the spec's scenario 5 (buyer 1
bought 10 Yes at 0.60 from seller 2, market resolves Yes).  The code
credits the buyer 10 * (1 + (1 - 0.60)) = 14 and also credits the seller
10, a total of 24, whereas the claim requires a total of
sum over trades of q = 10 paid to exactly one side. -/
theorem C1_payout_total_eval :
    (SettlementService.resolve_market marketClosedC [tradeC1]
        OutcomeSide.Yes).toOption.map Prod.snd =
      some [(1, 14), (2, 10)] ∧
    totalCredited (SettlementService.process_payouts [tradeC1]
        OutcomeSide.Yes) = 24 ∧
    sumQuantities [tradeC1] = 10 ∧
    (24 : Dec) ≠ 10 := by
  refine ⟨?_, ?_, ?_, ?_⟩ <;>
    norm_num [SettlementService.resolve_market, SettlementService.process_payouts,
      SettlementService.processPayoutsGo, marketClosedC, tradeC1,
      Market.is_resolved, Market.resolve, Except.toOption, totalCredited,
      sumQuantities]

/-- C3 counterexample: resolving the concrete closed market to Yes
succeeds, but resolving the result to the same outcome Yes again fails
with the already-resolved error — the claim's idempotent-success clause
is false on the code. -/
theorem C3_counterexample :
    (SettlementService.resolve_market marketClosedC [] OutcomeSide.Yes).toOption.map
        (fun p => p.1.status) = some MarketStatus.ResolvedYes ∧
    (SettlementService.resolve_market marketClosedC [] OutcomeSide.Yes).toOption.map
        (fun p => SettlementService.resolve_market p.1 [] OutcomeSide.Yes) =
      some (Except.error "Market is already resolved") := by
  constructor <;>
    simp [SettlementService.resolve_market, marketClosedC, Market.is_resolved,
      Market.resolve, Except.toOption]

/-- C3 amended: resolve_market succeeds on a Closed market, but a second
call on the result always fails with the already-resolved error, whether
the outcome is the same or different — it is not idempotent. -/
theorem C3_resolve_not_idempotent (market : Market) (trades trades2 : List Trade)
    (o1 o2 : OutcomeSide) (h : market.status = MarketStatus.Closed) :
    ∃ m2 payouts,
      SettlementService.resolve_market market trades o1 =
        Except.ok (m2, payouts) ∧
      SettlementService.resolve_market m2 trades2 o2 =
        Except.error "Market is already resolved" := by
  refine ⟨market.resolve o1, SettlementService.process_payouts trades o1, ?_, ?_⟩
  · unfold SettlementService.resolve_market
    simp [Market.is_resolved, h]
  · unfold SettlementService.resolve_market
    cases o1 <;> simp [Market.is_resolved, Market.resolve]

/-- C3 witness: the amended theorem applied to the concrete closed market
with outcomes Yes then No. -/
theorem C3_witness :
    ∃ m2 payouts,
      SettlementService.resolve_market marketClosedC [] OutcomeSide.Yes =
        Except.ok (m2, payouts) ∧
      SettlementService.resolve_market m2 [] OutcomeSide.No =
        Except.error "Market is already resolved" :=
  C3_resolve_not_idempotent marketClosedC [] [] OutcomeSide.Yes OutcomeSide.No
    (by decide)

/-- C5: evaluation of get_best_prices at a book whose Yes bids rest at
0.40 and 0.60.  The source takes keys().next() of the ascending BTreeMap,
so it reports 0.40 — the lowest bid — as best bid, while the highest bid
with a non-empty queue is 0.60; and after remove_order empties the 0.40
queue the emptied level is left behind and is still reported. -/
theorem C5_best_bid_eval :
    (bookBidsC.get_best_prices OutcomeSide.Yes).1 = some (2/5) ∧
    bestBidSpec bookBidsC.yes_bids = some (3/5) ∧
    ((2 : Dec)/5) ≠ 3/5 ∧
    (bookBidsC.remove_order 20).map
      (fun p => (p.2.get_best_prices OutcomeSide.Yes).1) =
        some (some (2/5)) ∧
    (bookBidsC.remove_order 20).map
      (fun p => bestBidSpec p.2.yes_bids) = some (some (3/5)) := by
  refine ⟨?_, ?_, ?_, ?_, ?_⟩ <;>
    norm_num [bookBidsC, OrderBook.get_best_prices, OrderBook.new,
      PriceMap.keysAsc, bestBidSpec, List.max?, OrderBook.remove_order,
      PriceMap.removeById, PriceLevel.removeById, bidLowC, bidHighC]

/-- C9 counterexample: credit_payout (BalanceService::process_payout) with
the non-positive amount -5 is not rejected: it changes the balance and
appends a ledger entry. -/
theorem C9_counterexample :
    (BalanceService.process_payout ledgerPayC (-5) 0).balance ≠
      ledgerPayC.balance ∧
    (BalanceService.process_payout ledgerPayC (-5) 0).transactions ≠
      ledgerPayC.transactions := by
  constructor <;>
    norm_num [BalanceService.process_payout, UserBalance.add_funds, ledgerPayC]

/-- C9 amended: deposit, withdraw, reserve and release all reject a
non-positive amount (returning an error before any state is written),
but credit_payout performs no amount check: it unconditionally adds the
amount — zero or negative included — to the available balance and appends
a SettlementPayout transaction. -/
theorem C9_nonpositive_amounts (st : LedgerState) (amount : Dec)
    (order_id : Uuid) (market_id : Nat) (h : amount ≤ 0) :
    BalanceService.add_funds st amount =
      Except.error "Amount must be positive" ∧
    BalanceService.withdraw_funds st amount =
      Except.error "Amount must be positive" ∧
    BalanceService.reserve_funds st amount order_id =
      Except.error "Amount must be positive" ∧
    BalanceService.release_funds st amount order_id =
      Except.error "Amount must be positive" ∧
    (BalanceService.process_payout st amount market_id).balance.available_balance =
      st.balance.available_balance + amount ∧
    (BalanceService.process_payout st amount market_id).transactions =
      st.transactions ++
        [⟨st.balance.user_id, amount, TransactionType.SettlementPayout,
          some market_id⟩] := by
  refine ⟨?_, ?_, ?_, ?_, ?_, ?_⟩ <;>
    simp [BalanceService.add_funds, BalanceService.withdraw_funds,
      BalanceService.reserve_funds, BalanceService.release_funds,
      BalanceService.process_payout, UserBalance.add_funds, h]

/-- C9 witness: the amended theorem applied at amount -5 on the concrete
ledger. -/
theorem C9_witness :
    BalanceService.add_funds ledgerPayC (-5) =
      Except.error "Amount must be positive" ∧
    BalanceService.withdraw_funds ledgerPayC (-5) =
      Except.error "Amount must be positive" ∧
    BalanceService.reserve_funds ledgerPayC (-5) 7 =
      Except.error "Amount must be positive" ∧
    BalanceService.release_funds ledgerPayC (-5) 7 =
      Except.error "Amount must be positive" ∧
    (BalanceService.process_payout ledgerPayC (-5) 0).balance.available_balance =
      ledgerPayC.balance.available_balance + (-5) ∧
    (BalanceService.process_payout ledgerPayC (-5) 0).transactions =
      ledgerPayC.transactions ++
        [⟨ledgerPayC.balance.user_id, -5, TransactionType.SettlementPayout,
          some 0⟩] :=
  C9_nonpositive_amounts ledgerPayC (-5) 7 0 (by decide)

/-- C2: evaluation at a crossing pair — user 2's ask at 0.55 rests on the
Yes book and user 1 submits a buy at 0.60.  submit_order accepts the order
with no error but performs no matching: the crossed book keeps both
orders, no trade exists, and no funds move to the seller, even though
process_order of the matching engine on the very same input would produce
the trade at the maker price 0.55 for quantity 10. -/
theorem C2_submit_skips_matching :
    (OrderService.submit_order takerBuyC ledgerC marketOpenC).toOption.map
        (fun p => (p.1.error, p.1.was_matched, p.2.2.order_book)) =
      some (none, false,
        ⟨[(3/5, [takerBuyC])], [(11/20, [restingAskC])], [], []⟩) ∧
    (MatchingEngine.process_order takerBuyC marketOpenC).1.trades =
      [⟨0, 10, 1, 11, 2, OutcomeSide.Yes, 11/20, 10⟩] := by
  constructor
  · norm_num [OrderService.submit_order, OrderService.calculate_reserve_amount,
      BalanceService.reserve_funds, UserBalance.reserve_funds, takerBuyC,
      ledgerC, marketOpenC, Market.is_open, OrderBook.add_order, Order.is_active,
      OrderBook.new, PriceMap.insertBack, Except.toOption]
  · norm_num [MatchingEngine.process_order, MatchingEngine.match_order,
      marketOpenC, takerBuyC, restingAskC, Market.is_open, opposingMap,
      OrderBook.new, matchingPrices, PriceMap.keysAsc, matchLoop, matchLevel,
      PriceMap.lookup, mkTradeAt, Order.apply_fill, setOpposing,
      PriceMap.removeLevel, Order.is_active]

/-- C8 counterexample: the order with price 0.555 — not aligned to the
0.01 grid (0.555 * 100 is not an integer) — is accepted by submit_order
with no error and placed on the book, instead of being rejected. -/
theorem C8_counterexample :
    (OrderService.submit_order offGridC ledgerC marketEmptyOpenC).toOption.map
        (fun p => (p.1.error, p.2.2.order_book.yes_bids)) =
      some (none, [(111/200, [offGridC])]) ∧
    (offGridC.price * 100).den ≠ 1 := by
  constructor
  · norm_num [OrderService.submit_order, OrderService.calculate_reserve_amount,
      BalanceService.reserve_funds, UserBalance.reserve_funds, offGridC,
      ledgerC, marketEmptyOpenC, Market.is_open, OrderBook.add_order,
      Order.is_active, OrderBook.new, PriceMap.insertBack, Except.toOption]
  · norm_num [offGridC, Rat.den]

/-- C8 amended: of the three rejection conditions only two exist in the
code.  A market that is not Open causes process_order to reject with the
book untouched and submit_order to return an error result with the market
unchanged; quantity = 0 makes submit_order fail before touching the book,
via the positive-amount check on the reserve (the reserve amount of a
zero-quantity order is 0).  Prices outside [0.01, 0.99] or off the 0.01
grid are not validated anywhere on the submit path. -/
theorem C8_reject_paths (order : Order) (ledger : LedgerState)
    (market : Market) :
    (market.is_open = false →
      (MatchingEngine.process_order order market).2 = market ∧
      (MatchingEngine.process_order order market).1.trades = [] ∧
      ∀ res l2 m2,
        OrderService.submit_order order ledger market = Except.ok (res, l2, m2) →
        m2 = market ∧ res.error = some "Market is not open for trading") ∧
    (order.quantity = 0 →
      ∃ e, OrderService.submit_order order ledger market = Except.error e) := by
  constructor
  · intro hopen
    refine ⟨?_, ?_, ?_⟩
    · simp [MatchingEngine.process_order, hopen]
    · simp [MatchingEngine.process_order, hopen]
    · intro res l2 m2 hok
      unfold OrderService.submit_order at hok
      cases hrf : BalanceService.reserve_funds ledger
          (OrderService.calculate_reserve_amount order) order.order_id with
      | error e =>
        simp only [hrf] at hok
        cases hok
      | ok l3 =>
        simp only [hrf, hopen, Bool.not_false, if_true, Bool.false_eq_true,
          not_false_eq_true, if_pos, Except.ok.injEq, Prod.mk.injEq] at hok
        obtain ⟨hres2, _, hm⟩ := hok
        exact ⟨hm.symm, by rw [← hres2]⟩
  · intro hq
    have hres : OrderService.calculate_reserve_amount order ≤ 0 := by
      unfold OrderService.calculate_reserve_amount
      cases order.side <;> simp [hq]
    exact ⟨"Amount must be positive",
      by simp [OrderService.submit_order, BalanceService.reserve_funds, hres]⟩

/-- Concrete zero-quantity order for the C8 witness. -/
def zeroQtyC : Order :=
  ⟨41, 1, 0, OrderSide.Buy, OutcomeSide.Yes, 1/2, 0, 0, OrderStatus.Open⟩

/-- C8 witness: the amended theorem applied to the concrete closed market
(first conjunct) and to the concrete zero-quantity order (second), with
both hypotheses discharged. -/
theorem C8_witness :
    ((MatchingEngine.process_order takerBuyC marketClosedC).2 = marketClosedC ∧
      (MatchingEngine.process_order takerBuyC marketClosedC).1.trades = [] ∧
      ∀ res l2 m2,
        OrderService.submit_order takerBuyC ledgerC marketClosedC =
          Except.ok (res, l2, m2) →
        m2 = marketClosedC ∧
        res.error = some "Market is not open for trading") ∧
    ∃ e, OrderService.submit_order zeroQtyC ledgerC marketEmptyOpenC =
      Except.error e :=
  ⟨(C8_reject_paths takerBuyC ledgerC marketClosedC).1 (by decide),
   (C8_reject_paths zeroQtyC ledgerC marketEmptyOpenC).2 (by decide)⟩

/-- Searching a queue for an id it does not contain finds nothing. -/
theorem removeById_level_not_mem (q : PriceLevel) (oid : Uuid)
    (h : oid ∉ q.map Order.order_id) : PriceLevel.removeById q oid = none := by
  induction q with
  | nil => rfl
  | cons o rest ih =>
    simp only [List.map_cons, List.mem_cons, not_or] at h
    unfold PriceLevel.removeById
    rw [if_neg (fun he => h.1 he.symm), ih h.2]

/-- Searching a book side for an id it does not contain finds nothing. -/
theorem removeById_map_not_mem (b : PriceMap) (oid : Uuid)
    (h : oid ∉ b.idsOf) : PriceMap.removeById b oid = none := by
  induction b with
  | nil => rfl
  | cons kq rest ih =>
    obtain ⟨k, q⟩ := kq
    simp only [PriceMap.idsOf, PriceMap.ordersOf, List.map_cons, List.flatten_cons,
      List.map_append, List.mem_append, not_or] at h
    unfold PriceMap.removeById
    rw [removeById_level_not_mem q oid h.1,
      ih (by simpa [PriceMap.idsOf, PriceMap.ordersOf] using h.2)]

/-- Removing a freshly appended order from a queue that did not contain
its id recovers the original queue. -/
theorem removeById_level_append (q : PriceLevel) (o : Order)
    (h : o.order_id ∉ q.map Order.order_id) :
    PriceLevel.removeById (q ++ [o]) o.order_id = some (o, q) := by
  induction q with
  | nil => simp [PriceLevel.removeById]
  | cons x rest ih =>
    simp only [List.map_cons, List.mem_cons, not_or] at h
    rw [List.cons_append]
    unfold PriceLevel.removeById
    rw [if_neg (fun he => h.1 he.symm), ih h.2]

/-- Removing a freshly inserted order from a book side that did not
contain its id succeeds and returns that very order. -/
theorem removeById_insertBack (b : PriceMap) (p : Dec) (o : Order)
    (h : o.order_id ∉ b.idsOf) :
    ∃ b2, PriceMap.removeById (b.insertBack p o) o.order_id = some (o, b2) := by
  induction b with
  | nil =>
    exact ⟨[(p, [])], by simp [PriceMap.insertBack, PriceMap.removeById,
      PriceLevel.removeById]⟩
  | cons kq rest ih =>
    obtain ⟨k, q⟩ := kq
    simp only [PriceMap.idsOf, PriceMap.ordersOf, List.map_cons, List.flatten_cons,
      List.map_append, List.mem_append, not_or] at h
    unfold PriceMap.insertBack
    by_cases hk : k = p
    · refine ⟨(k, q) :: rest, ?_⟩
      rw [if_pos hk]
      unfold PriceMap.removeById
      rw [removeById_level_append q o h.1]
    · rw [if_neg hk]
      by_cases hlt : p < k
      · refine ⟨(p, []) :: (k, q) :: rest, ?_⟩
        rw [if_pos hlt]
        simp [PriceMap.removeById, PriceLevel.removeById]
      · rw [if_neg hlt]
        obtain ⟨b2, hb2⟩ := ih (by simpa [PriceMap.idsOf, PriceMap.ordersOf] using h.2)
        refine ⟨(k, q) :: b2, ?_⟩
        unfold PriceMap.removeById
        rw [removeById_level_not_mem q o.order_id h.1, hb2]

/-- Removing a freshly added active order from a book whose ids did not
contain it succeeds and returns that very order. -/
theorem remove_after_add (bk : OrderBook) (o : Order)
    (ha : o.is_active = true) (h : o.order_id ∉ bk.allIds) :
    ∃ bk2, (bk.add_order o).remove_order o.order_id = some (o, bk2) := by
  obtain ⟨yb, ya, nb, na⟩ := bk
  simp only [OrderBook.allIds, List.mem_append, not_or] at h
  obtain ⟨⟨⟨h1, h2⟩, h3⟩, h4⟩ := h
  cases hs : o.side <;> cases ho : o.outcome
  · obtain ⟨b2, hb2⟩ := removeById_insertBack yb o.price o h1
    refine ⟨⟨b2, ya, nb, na⟩, ?_⟩
    have hadd : OrderBook.add_order ⟨yb, ya, nb, na⟩ o =
        ⟨yb.insertBack o.price o, ya, nb, na⟩ := by
      simp [OrderBook.add_order, ha, hs, ho]
    rw [hadd]
    simp only [OrderBook.remove_order, hb2]
  · obtain ⟨b2, hb2⟩ := removeById_insertBack nb o.price o h3
    refine ⟨⟨yb, ya, b2, na⟩, ?_⟩
    have hadd : OrderBook.add_order ⟨yb, ya, nb, na⟩ o =
        ⟨yb, ya, nb.insertBack o.price o, na⟩ := by
      simp [OrderBook.add_order, ha, hs, ho]
    rw [hadd]
    simp only [OrderBook.remove_order,
      removeById_map_not_mem yb o.order_id h1,
      removeById_map_not_mem ya o.order_id h2, hb2]
  · obtain ⟨b2, hb2⟩ := removeById_insertBack ya o.price o h2
    refine ⟨⟨yb, b2, nb, na⟩, ?_⟩
    have hadd : OrderBook.add_order ⟨yb, ya, nb, na⟩ o =
        ⟨yb, ya.insertBack o.price o, nb, na⟩ := by
      simp [OrderBook.add_order, ha, hs, ho]
    rw [hadd]
    simp only [OrderBook.remove_order,
      removeById_map_not_mem yb o.order_id h1, hb2]
  · obtain ⟨b2, hb2⟩ := removeById_insertBack na o.price o h4
    refine ⟨⟨yb, ya, nb, b2⟩, ?_⟩
    have hadd : OrderBook.add_order ⟨yb, ya, nb, na⟩ o =
        ⟨yb, ya, nb, na.insertBack o.price o⟩ := by
      simp [OrderBook.add_order, ha, hs, ho]
    rw [hadd]
    simp only [OrderBook.remove_order,
      removeById_map_not_mem yb o.order_id h1,
      removeById_map_not_mem ya o.order_id h2,
      removeById_map_not_mem nb o.order_id h3, hb2]

/-- C4 counterexample: cancelling the partially filled buy order (price
0.50, original quantity 10, remaining 4) releases 5 = price * quantity —
the reservation computed from the original quantity — not
price * remaining = 2 as the claim states. -/
theorem C4_counterexample :
    (OrderService.cancel_order partialBuyC ledgerPartialC marketPartialC).toOption.map
        (fun p => p.2.1.balance) = some ⟨1, 5, 0⟩ ∧
    OrderService.calculate_reserve_amount partialBuyC = 5 ∧
    partialBuyC.price * (partialBuyC.remaining_quantity : Dec) = 2 ∧
    (5 : Dec) ≠ 2 := by
  refine ⟨?_, ?_, ?_, ?_⟩ <;>
    norm_num [OrderService.cancel_order, OrderService.calculate_reserve_amount,
      OrderBook.remove_order, PriceMap.removeById, PriceLevel.removeById,
      BalanceService.release_funds, UserBalance.release_funds, partialBuyC,
      ledgerPartialC, marketPartialC, OrderBook.new, Except.toOption]

/-- C4 amended: cancel_order releases the reservation computed by
calculate_reserve_amount from the removed order's original quantity
(price * quantity for Buy, quantity for Sell), not from its remaining
quantity; since an unmatched order still has remaining = quantity, submit
followed by cancel of an unmatched order does restore the user's
available and reserved balances exactly. -/
theorem C4_cancel_release (order : Order) (ledger : LedgerState)
    (market : Market) :
    (∀ removed bk2 o2 l2 m2,
        market.order_book.remove_order order.order_id = some (removed, bk2) →
        OrderService.cancel_order order ledger market = Except.ok (o2, l2, m2) →
        l2.balance.available_balance =
          ledger.balance.available_balance +
            OrderService.calculate_reserve_amount removed ∧
        l2.balance.reserved_balance =
          ledger.balance.reserved_balance -
            OrderService.calculate_reserve_amount removed) ∧
    (order.status = OrderStatus.Open →
      market.status = MarketStatus.Open →
      0 < OrderService.calculate_reserve_amount order →
      OrderService.calculate_reserve_amount order ≤
        ledger.balance.available_balance →
      0 ≤ ledger.balance.reserved_balance →
      order.order_id ∉ market.order_book.allIds →
      ∃ res l2 m2 o3 l3 m3,
        OrderService.submit_order order ledger market = Except.ok (res, l2, m2) ∧
        OrderService.cancel_order order l2 m2 = Except.ok (o3, l3, m3) ∧
        l3.balance.available_balance = ledger.balance.available_balance ∧
        l3.balance.reserved_balance = ledger.balance.reserved_balance) := by
  constructor
  · intro removed bk2 o2 l2 m2 hrm hok
    unfold OrderService.cancel_order at hok
    simp only [hrm] at hok
    unfold BalanceService.release_funds at hok
    by_cases hneg : OrderService.calculate_reserve_amount removed ≤ 0
    · rw [if_pos hneg] at hok
      exact (Except.noConfusion hok)
    · rw [if_neg hneg] at hok
      cases hub : ledger.balance.release_funds
          (OrderService.calculate_reserve_amount removed) with
      | error e =>
        rw [hub] at hok
        exact (Except.noConfusion hok)
      | ok bal =>
        rw [hub] at hok
        simp only [Except.ok.injEq, Prod.mk.injEq] at hok
        obtain ⟨_, hl, _⟩ := hok
        unfold UserBalance.release_funds at hub
        split at hub
        · cases hub
        · simp only [Except.ok.injEq] at hub
          subst hub
          rw [← hl]
          exact ⟨rfl, rfl⟩
  · intro hstat hopen hpos havail hresnn hid
    have hact : order.is_active = true := by simp [Order.is_active, hstat]
    have hopenb : market.is_open = true := by simp [Market.is_open, hopen]
    set a := OrderService.calculate_reserve_amount order with ha
    have hrf : BalanceService.reserve_funds ledger a order.order_id =
        Except.ok ⟨⟨ledger.balance.user_id,
          ledger.balance.available_balance - a,
          ledger.balance.reserved_balance + a⟩,
          ledger.transactions ++ [⟨ledger.balance.user_id, a,
            TransactionType.OrderReserve, some order.order_id⟩]⟩ := by
      unfold BalanceService.reserve_funds UserBalance.reserve_funds
      rw [if_neg (not_le.mpr hpos), if_neg (not_lt.mpr havail)]
    have hsub : OrderService.submit_order order ledger market =
        Except.ok (⟨order, false, none⟩,
          ⟨⟨ledger.balance.user_id,
            ledger.balance.available_balance - a,
            ledger.balance.reserved_balance + a⟩,
            ledger.transactions ++ [⟨ledger.balance.user_id, a,
              TransactionType.OrderReserve, some order.order_id⟩]⟩,
          { market with order_book := market.order_book.add_order order }) := by
      unfold OrderService.submit_order
      simp [hrf, hopenb]
    obtain ⟨bk2, hrm⟩ := remove_after_add market.order_book order hact hid
    have hrel : BalanceService.release_funds
        (⟨⟨ledger.balance.user_id,
          ledger.balance.available_balance - a,
          ledger.balance.reserved_balance + a⟩,
          ledger.transactions ++ [⟨ledger.balance.user_id, a,
            TransactionType.OrderReserve, some order.order_id⟩]⟩ : LedgerState)
        a order.order_id =
        Except.ok ⟨⟨ledger.balance.user_id,
          ledger.balance.available_balance - a + a,
          ledger.balance.reserved_balance + a - a⟩,
          (ledger.transactions ++ [⟨ledger.balance.user_id, a,
            TransactionType.OrderReserve, some order.order_id⟩]) ++
            [⟨ledger.balance.user_id, a,
              TransactionType.OrderRelease, some order.order_id⟩]⟩ := by
      unfold BalanceService.release_funds UserBalance.release_funds
      rw [if_neg (not_le.mpr hpos),
        if_neg (not_lt.mpr (le_add_of_nonneg_left hresnn))]
    refine ⟨⟨order, false, none⟩,
      ⟨⟨ledger.balance.user_id,
        ledger.balance.available_balance - a,
        ledger.balance.reserved_balance + a⟩,
        ledger.transactions ++ [⟨ledger.balance.user_id, a,
          TransactionType.OrderReserve, some order.order_id⟩]⟩,
      { market with order_book := market.order_book.add_order order },
      { order with status := OrderStatus.Cancelled },
      ⟨⟨ledger.balance.user_id,
        ledger.balance.available_balance - a + a,
        ledger.balance.reserved_balance + a - a⟩,
        (ledger.transactions ++ [⟨ledger.balance.user_id, a,
          TransactionType.OrderReserve, some order.order_id⟩]) ++
          [⟨ledger.balance.user_id, a,
            TransactionType.OrderRelease, some order.order_id⟩]⟩,
      ⟨market.market_id, market.status, bk2, market.resolution⟩,
      hsub, ?_, by ring, by ring⟩
    unfold OrderService.cancel_order
    simp only [hrm, ← ha, hrel]

/-- C4 witness: part one of the theorem applied to the concrete partially
filled order (release equals the original-quantity reservation 5), and
part two applied to a fresh unmatched buy of 20 at 0.40 reserved from a
balance of 10 (both available and reserved restored). -/
theorem C4_witness :
    ((OrderService.cancel_order partialBuyC ledgerPartialC
          marketPartialC).toOption.map
        (fun p => p.2.1.balance.available_balance) =
      some (0 + OrderService.calculate_reserve_amount partialBuyC) ∧
      ∃ res l2 m2 o3 l3 m3,
        OrderService.submit_order
            ⟨50, 1, 0, OrderSide.Buy, OutcomeSide.Yes, 2/5, 20, 20,
              OrderStatus.Open⟩ ⟨⟨1, 10, 0⟩, []⟩ marketEmptyOpenC =
          Except.ok (res, l2, m2) ∧
        OrderService.cancel_order
            ⟨50, 1, 0, OrderSide.Buy, OutcomeSide.Yes, 2/5, 20, 20,
              OrderStatus.Open⟩ l2 m2 = Except.ok (o3, l3, m3) ∧
        l3.balance.available_balance = 10 ∧
        l3.balance.reserved_balance = 0) := by
  constructor
  · have hok : OrderService.cancel_order partialBuyC ledgerPartialC
        marketPartialC =
        Except.ok
          (⟨30, 1, 0, OrderSide.Buy, OutcomeSide.Yes, 1/2, 10, 4,
            OrderStatus.Cancelled⟩,
           ⟨⟨1, 5, 0⟩, [⟨1, 5, TransactionType.OrderRelease, some 30⟩]⟩,
           ⟨0, MarketStatus.Open, ⟨[(1/2, [])], [], [], []⟩, none⟩) := by
      norm_num [OrderService.cancel_order, OrderBook.remove_order,
        PriceMap.removeById, PriceLevel.removeById,
        BalanceService.release_funds, UserBalance.release_funds,
        OrderService.calculate_reserve_amount, partialBuyC,
        ledgerPartialC, marketPartialC, OrderBook.new]
    have h2 := (C4_cancel_release partialBuyC ledgerPartialC marketPartialC).1
      partialBuyC ⟨[(1/2, [])], [], [], []⟩ _ _ _
      (by norm_num [OrderBook.remove_order, PriceMap.removeById,
        PriceLevel.removeById, partialBuyC, marketPartialC, OrderBook.new])
      hok
    have h3 : (5 : Dec) = 0 + OrderService.calculate_reserve_amount partialBuyC := by
      simpa [ledgerPartialC] using h2.1
    rw [hok]
    simpa [Except.toOption] using h3
  · exact (C4_cancel_release
      ⟨50, 1, 0, OrderSide.Buy, OutcomeSide.Yes, 2/5, 20, 20, OrderStatus.Open⟩
      ⟨⟨1, 10, 0⟩, []⟩ marketEmptyOpenC).2 rfl rfl
      (by norm_num [OrderService.calculate_reserve_amount])
      (by norm_num [OrderService.calculate_reserve_amount])
      (by norm_num) (by simp [OrderBook.allIds, marketEmptyOpenC,
        OrderBook.new, PriceMap.idsOf, PriceMap.ordersOf])

/-- apply_fill does not change the order's user. -/
theorem apply_fill_user_id (o : Order) (f : Nat) :
    (o.apply_fill f).user_id = o.user_id := by
  unfold Order.apply_fill
  split <;> rfl

/-- apply_fill does not change the order's side. -/
theorem apply_fill_side (o : Order) (f : Nat) :
    (o.apply_fill f).side = o.side := by
  unfold Order.apply_fill
  split <;> rfl

/-- apply_fill does not change the order's outcome. -/
theorem apply_fill_outcome (o : Order) (f : Nat) :
    (o.apply_fill f).outcome = o.outcome := by
  unfold Order.apply_fill
  split <;> rfl

/-- apply_fill does not change the order's price. -/
theorem apply_fill_price (o : Order) (f : Nat) :
    (o.apply_fill f).price = o.price := by
  unfold Order.apply_fill
  split <;> rfl

/-- apply_fill of at most the remaining quantity subtracts exactly. -/
theorem apply_fill_remaining (o : Order) (f : Nat)
    (h : f ≤ o.remaining_quantity) :
    (o.apply_fill f).remaining_quantity = o.remaining_quantity - f := by
  unfold Order.apply_fill
  split
  all_goals simp only []
  all_goals omega

/-- The trade built by the matching loop carries the resting price level. -/
theorem mkTradeAt_price (o m : Order) (p : Dec) (q : Nat) :
    (mkTradeAt o m p q).price = p := by
  unfold mkTradeAt
  cases o.side <;> rfl

/-- The trade built by the matching loop carries the matched quantity. -/
theorem mkTradeAt_quantity (o m : Order) (p : Dec) (q : Nat) :
    (mkTradeAt o m p q).quantity = q := by
  unfold mkTradeAt
  cases o.side <;> rfl

/-- The maker-side ids of the built trade are the resting order's ids. -/
theorem mkTradeAt_makerIds (o m : Order) (p : Dec) (q : Nat) :
    makerIdsOf o.side (mkTradeAt o m p q) = (m.order_id, m.user_id) := by
  unfold mkTradeAt makerIdsOf
  cases o.side <;> rfl

/-- When taker and maker belong to different users, so do the two sides
of the built trade. -/
theorem mkTradeAt_users_ne (o m : Order) (p : Dec) (q : Nat)
    (h : m.user_id ≠ o.user_id) :
    (mkTradeAt o m p q).buyer_id ≠ (mkTradeAt o m p q).seller_id := by
  unfold mkTradeAt
  cases o.side <;> simp
  · exact fun he => h he.symm
  · exact h

/-- A justified trade list against a smaller maker set is justified
against a larger one. -/
theorem justified_mono {s : OrderSide} {u : Uuid} {M M' : List Order}
    (hsub : ∀ x ∈ M, x ∈ M') :
    ∀ (ts : List Trade) (r : Nat), justified s u r M ts → justified s u r M' ts := by
  intro ts
  induction ts with
  | nil => intro r h; trivial
  | cons t ts ih =>
    intro r h
    obtain ⟨⟨m, hm, hrest⟩, htail⟩ := h
    exact ⟨⟨m, hsub m hm, hrest⟩, ih _ htail⟩

/-- Concatenation of justified trade lists is justified when the second
starts from the remaining quantity left by the first. -/
theorem justified_append {s : OrderSide} {u : Uuid} {M : List Order} :
    ∀ (ts1 ts2 : List Trade) (r : Nat), justified s u r M ts1 →
      justified s u (r - sumQ ts1) M ts2 → justified s u r M (ts1 ++ ts2) := by
  intro ts1
  induction ts1 with
  | nil =>
    intro ts2 r _ h2
    simpa [sumQ] using h2
  | cons t ts1 ih =>
    intro ts2 r h1 h2
    obtain ⟨hhead, htail⟩ := h1
    refine ⟨hhead, ih ts2 (r - t.quantity) htail ?_⟩
    have : r - sumQ (t :: ts1) = r - t.quantity - sumQ ts1 := by
      simp [sumQ]
      omega
    rw [← this]
    exact h2

/-- A taker with no remaining quantity matches nothing in a level. -/
theorem matchLevel_of_zero (o : Order) (p : Dec) (q : PriceLevel)
    (h : o.remaining_quantity = 0) : matchLevel o p q = (o, q, []) := by
  cases q <;> simp [matchLevel, h]

/-- The matching level loop preserves the taker's user. -/
theorem matchLevel_user_id (p : Dec) (q : PriceLevel) :
    ∀ o : Order, (matchLevel o p q).1.user_id = o.user_id := by
  induction q with
  | nil => intro o; simp [matchLevel]
  | cons m rest ih =>
    intro o
    simp only [matchLevel]
    split_ifs <;> simp [ih, apply_fill_user_id]

/-- The matching level loop preserves the taker's side. -/
theorem matchLevel_side (p : Dec) (q : PriceLevel) :
    ∀ o : Order, (matchLevel o p q).1.side = o.side := by
  induction q with
  | nil => intro o; simp [matchLevel]
  | cons m rest ih =>
    intro o
    simp only [matchLevel]
    split_ifs <;> simp [ih, apply_fill_side]

/-- The matching level loop preserves the taker's outcome. -/
theorem matchLevel_outcome (p : Dec) (q : PriceLevel) :
    ∀ o : Order, (matchLevel o p q).1.outcome = o.outcome := by
  induction q with
  | nil => intro o; simp [matchLevel]
  | cons m rest ih =>
    intro o
    simp only [matchLevel]
    split_ifs <;> simp [ih, apply_fill_outcome]

/-- The taker's remaining quantity decreases by exactly the sum of the
level's trade quantities. -/
theorem matchLevel_remaining (p : Dec) (q : PriceLevel) :
    ∀ o : Order, (matchLevel o p q).1.remaining_quantity =
      o.remaining_quantity - sumQ (matchLevel o p q).2.2 := by
  induction q with
  | nil => intro o; simp [matchLevel, sumQ]
  | cons m rest ih =>
    intro o
    by_cases h0 : o.remaining_quantity = 0
    · simp [matchLevel, h0, sumQ]
    · by_cases hu : m.user_id = o.user_id
      · simp only [matchLevel, if_neg h0, if_pos hu]
        exact ih o
      · by_cases hq : 0 < min o.remaining_quantity m.remaining_quantity
        · have hle : min o.remaining_quantity m.remaining_quantity ≤
              o.remaining_quantity := Nat.min_le_left _ _
          by_cases hm2 : (m.apply_fill
              (min o.remaining_quantity m.remaining_quantity)).remaining_quantity = 0
          · simp only [matchLevel, if_neg h0, if_neg hu, if_pos hq, if_pos hm2]
            rw [ih, apply_fill_remaining _ _ hle]
            simp [sumQ, mkTradeAt_quantity]
            omega
          · simp only [matchLevel, if_neg h0, if_neg hu, if_pos hq, if_neg hm2]
            rw [ih, apply_fill_remaining _ _ hle]
            simp [sumQ, mkTradeAt_quantity]
            omega
        · by_cases hm0 : m.remaining_quantity = 0
          · simp only [matchLevel, if_neg h0, if_neg hu, if_neg hq, if_pos hm0]
            exact ih o
          · simp only [matchLevel, if_neg h0, if_neg hu, if_neg hq, if_neg hm0]
            exact ih o

/-- Every trade of one level is justified: its maker is in the level's
queue, is another user, sets the price, and the quantity is the min of
the taker's running remaining and the maker's remaining. -/
theorem matchLevel_justified (p : Dec) (q : PriceLevel) :
    ∀ o : Order, (∀ m ∈ q, m.price = p) →
      justified o.side o.user_id o.remaining_quantity q
        (matchLevel o p q).2.2 := by
  induction q with
  | nil =>
    intro o _
    simp only [matchLevel]
    exact trivial
  | cons m rest ih =>
    intro o hwf
    have hwr : ∀ x ∈ rest, x.price = p :=
      fun x hx => hwf x (List.mem_cons_of_mem _ hx)
    have hsub : ∀ x ∈ rest, x ∈ m :: rest :=
      fun x hx => List.mem_cons_of_mem _ hx
    by_cases h0 : o.remaining_quantity = 0
    · simp only [matchLevel, if_pos h0]
      exact trivial
    · by_cases hu : m.user_id = o.user_id
      · simp only [matchLevel, if_neg h0, if_pos hu]
        exact justified_mono hsub _ _ (ih o hwr)
      · by_cases hq : 0 < min o.remaining_quantity m.remaining_quantity
        · have hle := Nat.min_le_left o.remaining_quantity m.remaining_quantity
          have htail := ih (o.apply_fill
            (min o.remaining_quantity m.remaining_quantity)) hwr
          rw [apply_fill_side, apply_fill_user_id,
            apply_fill_remaining _ _ hle] at htail
          have hhead : ∃ mk ∈ m :: rest, mk.user_id ≠ o.user_id ∧
              (mkTradeAt o m p (min o.remaining_quantity m.remaining_quantity)).price =
                mk.price ∧
              (mkTradeAt o m p (min o.remaining_quantity m.remaining_quantity)).quantity =
                min o.remaining_quantity mk.remaining_quantity ∧
              0 < (mkTradeAt o m p (min o.remaining_quantity m.remaining_quantity)).quantity ∧
              makerIdsOf o.side
                  (mkTradeAt o m p (min o.remaining_quantity m.remaining_quantity)) =
                (mk.order_id, mk.user_id) := by
            refine ⟨m, List.mem_cons_self m rest, hu, ?_, ?_, ?_, ?_⟩
            · rw [mkTradeAt_price, hwf m (List.mem_cons_self m rest)]
            · rw [mkTradeAt_quantity]
            · rw [mkTradeAt_quantity]; exact hq
            · exact mkTradeAt_makerIds o m p _
          by_cases hm2 : (m.apply_fill
              (min o.remaining_quantity m.remaining_quantity)).remaining_quantity = 0
          · simp only [matchLevel, if_neg h0, if_neg hu, if_pos hq, if_pos hm2]
            refine ⟨hhead, ?_⟩
            rw [mkTradeAt_quantity]
            exact justified_mono hsub _ _ htail
          · simp only [matchLevel, if_neg h0, if_neg hu, if_pos hq, if_neg hm2]
            refine ⟨hhead, ?_⟩
            rw [mkTradeAt_quantity]
            exact justified_mono hsub _ _ htail
        · by_cases hm0 : m.remaining_quantity = 0
          · simp only [matchLevel, if_neg h0, if_neg hu, if_neg hq, if_pos hm0]
            exact justified_mono hsub _ _ (ih o hwr)
          · simp only [matchLevel, if_neg h0, if_neg hu, if_neg hq, if_neg hm0]
            exact justified_mono hsub _ _ (ih o hwr)

/-- No trade of one level has equal buyer and seller. -/
theorem matchLevel_no_self (p : Dec) (q : PriceLevel) :
    ∀ o : Order, ∀ t ∈ (matchLevel o p q).2.2,
      t.buyer_id ≠ t.seller_id := by
  induction q with
  | nil =>
    intro o t ht
    simp only [matchLevel, List.not_mem_nil] at ht
  | cons m rest ih =>
    intro o t ht
    by_cases h0 : o.remaining_quantity = 0
    · simp only [matchLevel, if_pos h0, List.not_mem_nil] at ht
    · by_cases hu : m.user_id = o.user_id
      · simp only [matchLevel, if_neg h0, if_pos hu] at ht
        exact ih o t ht
      · by_cases hq : 0 < min o.remaining_quantity m.remaining_quantity
        · by_cases hm2 : (m.apply_fill
              (min o.remaining_quantity m.remaining_quantity)).remaining_quantity = 0
          · simp only [matchLevel, if_neg h0, if_neg hu, if_pos hq, if_pos hm2,
              List.mem_cons] at ht
            rcases ht with he | ht
            · subst he; exact mkTradeAt_users_ne o m p _ hu
            · exact ih _ t ht
          · simp only [matchLevel, if_neg h0, if_neg hu, if_pos hq, if_neg hm2,
              List.mem_cons] at ht
            rcases ht with he | ht
            · subst he; exact mkTradeAt_users_ne o m p _ hu
            · exact ih _ t ht
        · by_cases hm0 : m.remaining_quantity = 0
          · simp only [matchLevel, if_neg h0, if_neg hu, if_neg hq, if_pos hm0] at ht
            exact ih o t ht
          · simp only [matchLevel, if_neg h0, if_neg hu, if_neg hq, if_neg hm0] at ht
            exact ih o t ht

/-- A resting order of the taker's own user survives the level loop. -/
theorem matchLevel_retain (p : Dec) (q : PriceLevel) :
    ∀ (o x : Order), x ∈ q → x.user_id = o.user_id →
      x ∈ (matchLevel o p q).2.1 := by
  induction q with
  | nil =>
    intro o x hx _
    exact absurd hx (List.not_mem_nil x)
  | cons m rest ih =>
    intro o x hx hxu
    by_cases h0 : o.remaining_quantity = 0
    · simpa only [matchLevel, if_pos h0] using hx
    · by_cases hu : m.user_id = o.user_id
      · simp only [matchLevel, if_neg h0, if_pos hu]
        rcases List.mem_cons.mp hx with he | hx2
        · exact he ▸ List.mem_cons_self _ _
        · exact List.mem_cons_of_mem _ (ih o x hx2 hxu)
      · have hxm : x ≠ m := by
          intro he
          exact hu (by rw [← he]; exact hxu)
        have hx2 : x ∈ rest := by
          rcases List.mem_cons.mp hx with he | hx2
          · exact absurd he hxm
          · exact hx2
        by_cases hq : 0 < min o.remaining_quantity m.remaining_quantity
        · by_cases hm2 : (m.apply_fill
              (min o.remaining_quantity m.remaining_quantity)).remaining_quantity = 0
          · simp only [matchLevel, if_neg h0, if_neg hu, if_pos hq, if_pos hm2]
            exact ih _ x hx2 (by rw [apply_fill_user_id]; exact hxu)
          · simp only [matchLevel, if_neg h0, if_neg hu, if_pos hq, if_neg hm2]
            exact List.mem_cons_of_mem _
              (ih _ x hx2 (by rw [apply_fill_user_id]; exact hxu))
        · by_cases hm0 : m.remaining_quantity = 0
          · simp only [matchLevel, if_neg h0, if_neg hu, if_neg hq, if_pos hm0]
            exact ih o x hx2 hxu
          · simp only [matchLevel, if_neg h0, if_neg hu, if_neg hq, if_neg hm0]
            exact List.mem_cons_of_mem _ (ih o x hx2 hxu)

/-- When the taker leaves a level with remaining quantity, every surviving
queued order was already in the queue (unchanged). -/
theorem matchLevel_queue_subset (p : Dec) (q : PriceLevel) :
    ∀ o : Order, (matchLevel o p q).1.remaining_quantity ≠ 0 →
      ∀ x ∈ (matchLevel o p q).2.1, x ∈ q := by
  induction q with
  | nil =>
    intro o _ x hx
    simpa only [matchLevel] using hx
  | cons m rest ih =>
    intro o hrem x hx
    by_cases h0 : o.remaining_quantity = 0
    · simpa only [matchLevel, if_pos h0] using hx
    · by_cases hu : m.user_id = o.user_id
      · simp only [matchLevel, if_neg h0, if_pos hu] at hrem hx
        rcases List.mem_cons.mp hx with he | hx2
        · exact he ▸ List.mem_cons_self _ _
        · exact List.mem_cons_of_mem _ (ih o hrem x hx2)
      · by_cases hq : 0 < min o.remaining_quantity m.remaining_quantity
        · have hle := Nat.min_le_left o.remaining_quantity m.remaining_quantity
          by_cases hm2 : (m.apply_fill
              (min o.remaining_quantity m.remaining_quantity)).remaining_quantity = 0
          · simp only [matchLevel, if_neg h0, if_neg hu, if_pos hq, if_pos hm2]
              at hrem hx
            exact List.mem_cons_of_mem _ (ih _ hrem x hx)
          · exfalso
            have hlt : min o.remaining_quantity m.remaining_quantity <
                m.remaining_quantity := by
              unfold Order.apply_fill at hm2
              split at hm2
              · exact absurd rfl hm2
              · omega
            have hmin : min o.remaining_quantity m.remaining_quantity =
                o.remaining_quantity := by omega
            have hz : (o.apply_fill
                (min o.remaining_quantity m.remaining_quantity)).remaining_quantity = 0 := by
              rw [apply_fill_remaining _ _ hle]
              omega
            simp only [matchLevel, if_neg h0, if_neg hu, if_pos hq, if_neg hm2,
              matchLevel_of_zero _ p rest hz] at hrem
            exact hrem hz
        · by_cases hm0 : m.remaining_quantity = 0
          · simp only [matchLevel, if_neg h0, if_neg hu, if_neg hq, if_pos hm0]
              at hrem hx
            exact List.mem_cons_of_mem _ (ih o hrem x hx)
          · simp only [matchLevel, if_neg h0, if_neg hu, if_neg hq, if_neg hm0]
              at hrem hx
            rcases List.mem_cons.mp hx with he | hx2
            · exact he ▸ List.mem_cons_self _ _
            · exact List.mem_cons_of_mem _ (ih o hrem x hx2)

/-- The level loop keeps every surviving queued order at the level price. -/
theorem matchLevel_wf (p : Dec) (q : PriceLevel) :
    ∀ o : Order, (∀ m ∈ q, m.price = p) →
      ∀ x ∈ (matchLevel o p q).2.1, x.price = p := by
  induction q with
  | nil =>
    intro o _ x hx
    simp only [matchLevel, List.not_mem_nil] at hx
  | cons m rest ih =>
    intro o hwf x hx
    have hwr : ∀ y ∈ rest, y.price = p :=
      fun y hy => hwf y (List.mem_cons_of_mem _ hy)
    by_cases h0 : o.remaining_quantity = 0
    · rw [matchLevel_of_zero o p _ h0] at hx
      exact hwf x hx
    · by_cases hu : m.user_id = o.user_id
      · simp only [matchLevel, if_neg h0, if_pos hu] at hx
        rcases List.mem_cons.mp hx with he | hx2
        · exact he ▸ hwf m (List.mem_cons_self _ _)
        · exact ih o hwr x hx2
      · by_cases hq : 0 < min o.remaining_quantity m.remaining_quantity
        · by_cases hm2 : (m.apply_fill
              (min o.remaining_quantity m.remaining_quantity)).remaining_quantity = 0
          · simp only [matchLevel, if_neg h0, if_neg hu, if_pos hq, if_pos hm2] at hx
            exact ih _ hwr x hx
          · simp only [matchLevel, if_neg h0, if_neg hu, if_pos hq, if_neg hm2] at hx
            rcases List.mem_cons.mp hx with he | hx2
            · rw [he, apply_fill_price]
              exact hwf m (List.mem_cons_self _ _)
            · exact ih _ hwr x hx2
        · by_cases hm0 : m.remaining_quantity = 0
          · simp only [matchLevel, if_neg h0, if_neg hu, if_neg hq, if_pos hm0] at hx
            exact ih o hwr x hx
          · simp only [matchLevel, if_neg h0, if_neg hu, if_neg hq, if_neg hm0] at hx
            rcases List.mem_cons.mp hx with he | hx2
            · exact he ▸ hwf m (List.mem_cons_self _ _)
            · exact ih o hwr x hx2

/-- A successful lookup is a member of the association list. -/
theorem lookup_mem (b : PriceMap) (p : Dec) (q : PriceLevel)
    (h : b.lookup p = some q) : (p, q) ∈ b := by
  induction b with
  | nil => cases h
  | cons kq rest ih =>
    obtain ⟨k, q0⟩ := kq
    unfold PriceMap.lookup at h
    by_cases hk : k = p
    · rw [if_pos hk] at h
      injection h with hq
      subst hk
      subst hq
      exact List.mem_cons_self _ _
    · rw [if_neg hk] at h
      exact List.mem_cons_of_mem _ (ih h)

/-- An order of a stored level is among the stored orders. -/
theorem mem_level_ordersOf {x : Order} (b : PriceMap) (p : Dec)
    (q : PriceLevel) (hm : (p, q) ∈ b) (hx : x ∈ q) : x ∈ b.ordersOf := by
  induction b with
  | nil => exact absurd hm (List.not_mem_nil _)
  | cons kq rest ih =>
    obtain ⟨k, q0⟩ := kq
    simp only [PriceMap.ordersOf, List.map_cons, List.flatten_cons,
      List.mem_append]
    rcases List.mem_cons.mp hm with he | hm2
    · left
      injection he with _ hq
      rw [← hq]
      exact hx
    · right
      simpa only [PriceMap.ordersOf] using ih hm2

/-- A level of removeLevel was a level of the original map. -/
theorem mem_removeLevel {pq : Dec × PriceLevel} (b : PriceMap) (p : Dec)
    (h : pq ∈ b.removeLevel p) : pq ∈ b := by
  induction b with
  | nil => exact absurd h (List.not_mem_nil _)
  | cons kq rest ih =>
    obtain ⟨k, q0⟩ := kq
    unfold PriceMap.removeLevel at h
    by_cases hk : k = p
    · rw [if_pos hk] at h
      exact List.mem_cons_of_mem _ h
    · rw [if_neg hk] at h
      rcases List.mem_cons.mp h with he | h2
      · exact he ▸ List.mem_cons_self _ _
      · exact List.mem_cons_of_mem _ (ih h2)

/-- A level of setLevel is the new level or a level of the original map. -/
theorem mem_setLevel {pq : Dec × PriceLevel} (b : PriceMap) (p : Dec)
    (q2 : PriceLevel) (h : pq ∈ b.setLevel p q2) :
    pq = (p, q2) ∨ pq ∈ b := by
  induction b with
  | nil =>
    unfold PriceMap.setLevel at h
    exact absurd h (List.not_mem_nil _)
  | cons kq rest ih =>
    obtain ⟨k, q0⟩ := kq
    unfold PriceMap.setLevel at h
    by_cases hk : k = p
    · rw [if_pos hk] at h
      rcases List.mem_cons.mp h with he | h2
      · left
        rw [he, hk]
      · right
        exact List.mem_cons_of_mem _ h2
    · rw [if_neg hk] at h
      rcases List.mem_cons.mp h with he | h2
      · right
        exact he ▸ List.mem_cons_self _ _
      · rcases ih h2 with he | h3
        · exact Or.inl he
        · exact Or.inr (List.mem_cons_of_mem _ h3)

/-- Membership in the stored orders survives the matching loop's level
write-back as long as the order survives the level itself. -/
theorem mem_ordersOf_update {x : Order} (b : PriceMap) (p : Dec)
    (q0 q2 : PriceLevel) (hl : b.lookup p = some q0)
    (hx : x ∈ q0 → x ∈ q2) (hmem : x ∈ b.ordersOf) :
    x ∈ (if q2.isEmpty then b.removeLevel p else b.setLevel p q2).ordersOf := by
  induction b with
  | nil => cases hl
  | cons kq rest ih =>
    obtain ⟨k, q⟩ := kq
    unfold PriceMap.lookup at hl
    simp only [PriceMap.ordersOf, List.map_cons, List.flatten_cons,
      List.mem_append] at hmem
    by_cases hk : k = p
    · rw [if_pos hk] at hl
      injection hl with hq0
      rcases hmem with hq | hrest

      · have hx2 := hx (hq0 ▸ hq)
        have hne : ¬ q2.isEmpty = true := by
          cases q2
          · exact absurd hx2 (List.not_mem_nil x)
          · simp
        rw [if_neg hne]
        unfold PriceMap.setLevel
        rw [if_pos hk]
        simp only [PriceMap.ordersOf, List.map_cons, List.flatten_cons,
          List.mem_append]
        exact Or.inl hx2
      · by_cases he : q2.isEmpty

        · rw [if_pos he]
          unfold PriceMap.removeLevel
          rw [if_pos hk]
          simpa only [PriceMap.ordersOf] using hrest
        · rw [if_neg he]
          unfold PriceMap.setLevel
          rw [if_pos hk]
          simp only [PriceMap.ordersOf, List.map_cons, List.flatten_cons,
            List.mem_append]
          right
          simpa only [PriceMap.ordersOf] using hrest
    · rw [if_neg hk] at hl
      by_cases he : q2.isEmpty
      · rw [if_pos he]
        unfold PriceMap.removeLevel
        rw [if_neg hk]
        simp only [PriceMap.ordersOf, List.map_cons, List.flatten_cons,
          List.mem_append]
        rcases hmem with hq | hrest
        · exact Or.inl hq
        · right
          have := ih hl hrest
          rw [if_pos he] at this
          simpa only [PriceMap.ordersOf] using this
      · rw [if_neg he]
        unfold PriceMap.setLevel
        rw [if_neg hk]
        simp only [PriceMap.ordersOf, List.map_cons, List.flatten_cons,
          List.mem_append]
        rcases hmem with hq | hrest
        · exact Or.inl hq
        · right
          have := ih hl hrest
          rw [if_neg he] at this
          simpa only [PriceMap.ordersOf] using this

/-- When the surviving level queue shrank, the written-back book's stored
orders all come from the original book. -/
theorem mem_ordersOf_update_subset {x : Order} (b : PriceMap) (p : Dec)
    (q0 q2 : PriceLevel) (hl : b.lookup p = some q0)
    (hsub : ∀ y ∈ q2, y ∈ q0)
    (hmem : x ∈ (if q2.isEmpty then b.removeLevel p
        else b.setLevel p q2).ordersOf) :
    x ∈ b.ordersOf := by
  induction b with
  | nil => cases hl
  | cons kq rest ih =>
    obtain ⟨k, q⟩ := kq
    unfold PriceMap.lookup at hl
    simp only [PriceMap.ordersOf, List.map_cons, List.flatten_cons,
      List.mem_append]
    by_cases hk : k = p
    · rw [if_pos hk] at hl
      injection hl with hq0
      by_cases he : q2.isEmpty
      · rw [if_pos he] at hmem
        unfold PriceMap.removeLevel at hmem
        rw [if_pos hk] at hmem
        right
        simpa only [PriceMap.ordersOf] using hmem
      · rw [if_neg he] at hmem
        unfold PriceMap.setLevel at hmem
        rw [if_pos hk] at hmem
        simp only [PriceMap.ordersOf, List.map_cons, List.flatten_cons,
          List.mem_append] at hmem
        rcases hmem with hq | hrest
        · exact Or.inl (hq0 ▸ hsub x hq)
        · right
          simpa only [PriceMap.ordersOf] using hrest
    · rw [if_neg hk] at hl
      by_cases he : q2.isEmpty
      · rw [if_pos he] at hmem
        unfold PriceMap.removeLevel at hmem
        rw [if_neg hk] at hmem
        simp only [PriceMap.ordersOf, List.map_cons, List.flatten_cons,
          List.mem_append] at hmem
        rcases hmem with hq | hrest
        · exact Or.inl hq
        · right
          refine ih hl ?_
          rw [if_pos he]
          simpa only [PriceMap.ordersOf] using hrest
      · rw [if_neg he] at hmem
        unfold PriceMap.setLevel at hmem
        rw [if_neg hk] at hmem
        simp only [PriceMap.ordersOf, List.map_cons, List.flatten_cons,
          List.mem_append] at hmem
        rcases hmem with hq | hrest
        · exact Or.inl hq
        · right
          refine ih hl ?_
          rw [if_neg he]
          simpa only [PriceMap.ordersOf] using hrest

/-- A taker with no remaining quantity matches nothing in the price loop. -/
theorem matchLoop_of_zero (o : Order) (ps : List Dec) (b : PriceMap)
    (h : o.remaining_quantity = 0) : matchLoop o ps b = (o, b, []) := by
  cases ps <;> simp [matchLoop, h]

/-- The price loop preserves the taker's user. -/
theorem matchLoop_user_id (ps : List Dec) :
    ∀ (o : Order) (b : PriceMap), (matchLoop o ps b).1.user_id = o.user_id := by
  induction ps with
  | nil => intro o b; simp [matchLoop]
  | cons price rest ih =>
    intro o b
    by_cases h0 : o.remaining_quantity = 0
    · simp [matchLoop, h0]
    · simp only [matchLoop, if_neg h0]
      cases hl : b.lookup price with
      | none => simp only [hl]; exact ih o b
      | some q =>
        simp only [hl]
        rw [ih, matchLevel_user_id]

/-- The price loop preserves the taker's side. -/
theorem matchLoop_side (ps : List Dec) :
    ∀ (o : Order) (b : PriceMap), (matchLoop o ps b).1.side = o.side := by
  induction ps with
  | nil => intro o b; simp [matchLoop]
  | cons price rest ih =>
    intro o b
    by_cases h0 : o.remaining_quantity = 0
    · simp [matchLoop, h0]
    · simp only [matchLoop, if_neg h0]
      cases hl : b.lookup price with
      | none => simp only [hl]; exact ih o b
      | some q =>
        simp only [hl]
        rw [ih, matchLevel_side]

/-- The price loop preserves the taker's outcome. -/
theorem matchLoop_outcome (ps : List Dec) :
    ∀ (o : Order) (b : PriceMap), (matchLoop o ps b).1.outcome = o.outcome := by
  induction ps with
  | nil => intro o b; simp [matchLoop]
  | cons price rest ih =>
    intro o b
    by_cases h0 : o.remaining_quantity = 0
    · simp [matchLoop, h0]
    · simp only [matchLoop, if_neg h0]
      cases hl : b.lookup price with
      | none => simp only [hl]; exact ih o b
      | some q =>
        simp only [hl]
        rw [ih, matchLevel_outcome]

/-- Every trade of the price loop is justified against the stored orders
of the walked book side. -/
theorem matchLoop_justified (ps : List Dec) :
    ∀ (o : Order) (b : PriceMap),
      (∀ pq ∈ b, ∀ m ∈ pq.2, m.price = pq.1) →
      justified o.side o.user_id o.remaining_quantity b.ordersOf
        (matchLoop o ps b).2.2 := by
  induction ps with
  | nil =>
    intro o b _
    simp only [matchLoop]
    exact trivial
  | cons price rest ih =>
    intro o b hwf
    by_cases h0 : o.remaining_quantity = 0
    · simp only [matchLoop, if_pos h0]
      exact trivial
    · simp only [matchLoop, if_neg h0]
      cases hl : b.lookup price with
      | none =>
        simp only [hl]
        exact ih o b hwf
      | some q =>
        simp only [hl]
        have hmemlvl := lookup_mem b price q hl
        have hwfq : ∀ m ∈ q, m.price = price :=
          fun m hm => hwf (price, q) hmemlvl m hm
        have h1 : justified o.side o.user_id o.remaining_quantity
            b.ordersOf (matchLevel o price q).2.2 :=
          justified_mono (fun x hx => mem_level_ordersOf b price q hmemlvl hx)
            _ _ (matchLevel_justified price q o hwfq)
        refine justified_append _ _ _ h1 ?_
        by_cases hz : (matchLevel o price q).1.remaining_quantity = 0
        · rw [matchLoop_of_zero _ _ _ hz]
          exact trivial
        · have hb2wf : ∀ pq ∈ (if (matchLevel o price q).2.1.isEmpty then
              b.removeLevel price else b.setLevel price (matchLevel o price q).2.1),
              ∀ m ∈ pq.2, m.price = pq.1 := by
            intro pq hpq m hm
            by_cases he : (matchLevel o price q).2.1.isEmpty
            · rw [if_pos he] at hpq
              exact hwf pq (mem_removeLevel b price hpq) m hm
            · rw [if_neg he] at hpq
              rcases mem_setLevel b price _ hpq with heq | hpq2
              · subst heq
                exact matchLevel_wf price q o hwfq m hm
              · exact hwf pq hpq2 m hm
          have h2 := ih (matchLevel o price q).1 _ hb2wf
          rw [matchLevel_side, matchLevel_user_id, matchLevel_remaining] at h2
          have hsubq := matchLevel_queue_subset price q o hz
          refine justified_mono ?_ _ _ h2
          intro x hx
          exact mem_ordersOf_update_subset b price q _ hl hsubq hx

/-- No trade of the price loop has equal buyer and seller. -/
theorem matchLoop_no_self (ps : List Dec) :
    ∀ (o : Order) (b : PriceMap), ∀ t ∈ (matchLoop o ps b).2.2,
      t.buyer_id ≠ t.seller_id := by
  induction ps with
  | nil =>
    intro o b t ht
    simp only [matchLoop, List.not_mem_nil] at ht
  | cons price rest ih =>
    intro o b t ht
    by_cases h0 : o.remaining_quantity = 0
    · simp only [matchLoop, if_pos h0, List.not_mem_nil] at ht
    · simp only [matchLoop, if_neg h0] at ht
      cases hl : b.lookup price with
      | none =>
        rw [hl] at ht
        exact ih o b t ht
      | some q =>
        rw [hl] at ht
        simp only [List.mem_append] at ht
        rcases ht with ht1 | ht2
        · exact matchLevel_no_self price q o t ht1
        · exact ih _ _ t ht2

/-- A stored order of the taker's own user survives the price loop. -/
theorem matchLoop_retain (ps : List Dec) :
    ∀ (o : Order) (b : PriceMap) (x : Order), x.user_id = o.user_id →
      x ∈ b.ordersOf → x ∈ (matchLoop o ps b).2.1.ordersOf := by
  induction ps with
  | nil =>
    intro o b x _ hx
    simpa only [matchLoop] using hx
  | cons price rest ih =>
    intro o b x hxu hx
    by_cases h0 : o.remaining_quantity = 0
    · simpa only [matchLoop, if_pos h0] using hx
    · simp only [matchLoop, if_neg h0]
      cases hl : b.lookup price with
      | none =>
        simp only [hl]
        exact ih o b x hxu hx
      | some q =>
        simp only [hl]
        refine ih _ _ x (by rw [hxu, matchLevel_user_id]) ?_
        exact mem_ordersOf_update b price q _ hl
          (fun hq => matchLevel_retain price q o x hq hxu) hx

/-- Reading back the opposing map just written returns it. -/
theorem opposingMap_setOpposing (bk : OrderBook) (s : OrderSide)
    (oc : OutcomeSide) (M : PriceMap) :
    opposingMap (setOpposing bk s oc M) s oc = M := by
  cases s <;> cases oc <;> rfl

/-- Adding an order of the taker's own side and outcome never changes the
opposing map. -/
theorem opposingMap_add_own (bk : OrderBook) (o2 : Order) (s : OrderSide)
    (oc : OutcomeSide) (hs : o2.side = s) (ho : o2.outcome = oc) :
    opposingMap (bk.add_order o2) s oc = opposingMap bk s oc := by
  cases s <;> cases oc <;>
    (simp only [OrderBook.add_order, hs, ho]; split) <;> rfl

/-- The trades of match_order are the trades of the price loop over the
opposing map. -/
theorem match_order_trades (order : Order) (market : Market) :
    (MatchingEngine.match_order order market).2.2 =
      (matchLoop order
        (matchingPrices order
          (opposingMap market.order_book order.side order.outcome))
        (opposingMap market.order_book order.side order.outcome)).2.2 := rfl

/-- The opposing map after match_order is the price loop's book. -/
theorem match_order_opposing (order : Order) (market : Market) :
    opposingMap (MatchingEngine.match_order order market).2.1.order_book
        order.side order.outcome =
      (matchLoop order
        (matchingPrices order
          (opposingMap market.order_book order.side order.outcome))
        (opposingMap market.order_book order.side order.outcome)).2.1 := by
  simp only [MatchingEngine.match_order]
  exact opposingMap_setOpposing _ _ _ _

/-- match_order preserves the taker's side. -/
theorem match_order_taker_side (order : Order) (market : Market) :
    (MatchingEngine.match_order order market).1.side = order.side := by
  simp only [MatchingEngine.match_order]
  exact matchLoop_side _ _ _

/-- match_order preserves the taker's outcome. -/
theorem match_order_taker_outcome (order : Order) (market : Market) :
    (MatchingEngine.match_order order market).1.outcome = order.outcome := by
  simp only [MatchingEngine.match_order]
  exact matchLoop_outcome _ _ _

/-- On an open market, process_order's trades are match_order's trades. -/
theorem process_order_trades (order : Order) (market : Market)
    (hop : market.is_open = true) :
    (MatchingEngine.process_order order market).1.trades =
      (MatchingEngine.match_order order market).2.2 := by
  unfold MatchingEngine.process_order
  rw [if_neg (by simp [hop])]
  simp only []
  split <;> rfl

/-- On an open market, the opposing map after process_order is the
opposing map after match_order (the residual is placed on the taker's own
side only). -/
theorem process_order_opposing (order : Order) (market : Market)
    (hop : market.is_open = true) :
    opposingMap (MatchingEngine.process_order order market).2.order_book
        order.side order.outcome =
      opposingMap (MatchingEngine.match_order order market).2.1.order_book
        order.side order.outcome := by
  unfold MatchingEngine.process_order
  rw [if_neg (by simp [hop])]
  simp only []
  split
  · exact opposingMap_add_own _ _ _ _ (match_order_taker_side order market)
      (match_order_taker_outcome order market)
  · rfl

/-- C6: every trade produced by the matching engine is justified: its
price is the resting (maker) order's price level at match time and its
quantity is min(taker remaining at match time, maker remaining); the
hypothesis states the book invariant that each stored order rests at its
own price level. -/
theorem C6_maker_price_min_quantity (order : Order) (market : Market)
    (hwf : ∀ pq ∈ opposingMap market.order_book order.side order.outcome,
        ∀ m ∈ pq.2, m.price = pq.1) :
    justified order.side order.user_id order.remaining_quantity
      (opposingMap market.order_book order.side order.outcome).ordersOf
      (MatchingEngine.match_order order market).2.2 := by
  rw [match_order_trades]
  exact matchLoop_justified _ order _ hwf

/-- Concrete same-user taker for the C7 witness: user 2 buys Yes while
user 2's ask rests on the book. -/
def takerSelfC : Order :=
  ⟨14, 2, 0, OrderSide.Buy, OutcomeSide.Yes, 7/10, 5, 5, OrderStatus.Open⟩

/-- C7: matching never produces a self trade — every trade of
process_order has distinct buyer and seller — and a resting order of the
taker's own user is never removed from the opposing book side. -/
theorem C7_no_self_match (order : Order) (market : Market) :
    (∀ t ∈ (MatchingEngine.process_order order market).1.trades,
        t.buyer_id ≠ t.seller_id) ∧
    (∀ m ∈ (opposingMap market.order_book order.side order.outcome).ordersOf,
        m.user_id = order.user_id →
        m ∈ (opposingMap
            (MatchingEngine.process_order order market).2.order_book
            order.side order.outcome).ordersOf) := by
  constructor
  · intro t ht
    by_cases hop : market.is_open
    · rw [process_order_trades order market hop, match_order_trades] at ht
      exact matchLoop_no_self _ _ _ t ht
    · unfold MatchingEngine.process_order at ht
      rw [if_pos (by simpa using hop)] at ht
      simp only [List.not_mem_nil] at ht
  · intro x hx hxu
    by_cases hop : market.is_open
    · rw [process_order_opposing order market hop, match_order_opposing]
      exact matchLoop_retain _ order _ x hxu hx
    · unfold MatchingEngine.process_order
      rw [if_pos (by simpa using hop)]
      exact hx

/-- C6 witness: the theorem applied to the crossing pair (buy 0.60 × 10
by user 1 against user 2's resting ask 0.55 × 10), whose book satisfies
the level-price invariant; the produced trade list is the single trade at
the maker price. -/
theorem C6_witness :
    justified takerBuyC.side takerBuyC.user_id takerBuyC.remaining_quantity
      (opposingMap marketOpenC.order_book takerBuyC.side
        takerBuyC.outcome).ordersOf
      (MatchingEngine.match_order takerBuyC marketOpenC).2.2 :=
  C6_maker_price_min_quantity takerBuyC marketOpenC (by
    simp [marketOpenC, opposingMap, takerBuyC, OrderBook.new, restingAskC])

/-- C7 witness: the theorem applied to the crossing pair gives the
produced trade buyer 1 ≠ seller 2, and applied to user 2's buy against
user 2's own resting ask gives that the resting ask survives on the book. -/
theorem C7_witness :
    ((⟨0, 10, 1, 11, 2, OutcomeSide.Yes, 11/20, 10⟩ : Trade).buyer_id ≠
      (⟨0, 10, 1, 11, 2, OutcomeSide.Yes, 11/20, 10⟩ : Trade).seller_id) ∧
    restingAskC ∈ (opposingMap
        (MatchingEngine.process_order takerSelfC marketOpenC).2.order_book
        takerSelfC.side takerSelfC.outcome).ordersOf :=
  ⟨(C7_no_self_match takerBuyC marketOpenC).1 _ (by
      norm_num [MatchingEngine.process_order, MatchingEngine.match_order,
        marketOpenC, takerBuyC, restingAskC, Market.is_open, opposingMap,
        OrderBook.new, matchingPrices, PriceMap.keysAsc, matchLoop, matchLevel,
        PriceMap.lookup, mkTradeAt, Order.apply_fill, setOpposing,
        PriceMap.removeLevel, Order.is_active]),
   (C7_no_self_match takerSelfC marketOpenC).2 restingAskC (by
      simp [marketOpenC, opposingMap, takerSelfC, OrderBook.new,
        PriceMap.ordersOf]) rfl⟩

end BetWise
